import Mathlib

/-!
Verification development for the `concurrent-stream` library (src/index.js).

The library exports two constructors, `writable(work, flush, options)` and
`transform(work, options)`, that wrap a Node writable / transform stream and
run the user-supplied `work` function on up to `options.concurrency` chunks at
a time.  Chunks are opaque to the scheduling logic; we model them as natural
numbers.  The event-driven JavaScript is embedded as a state machine:

* the stage state (`WState` / `TState`) carries the fields the source reads
  and writes: the `pending` counter, the host stream's `_writableState`
  (its buffered chunks, the `writing` flag and the `errorEmitted` flag),
  the registered `once('free')` / `once('empty')` listeners, the end/finish
  flags, plus ghost trace fields (dispatch records, completion records,
  snapshots taken when `flush` or the underlying `end` is invoked) that
  record the per-instant facts the specification talks about but that do not
  influence control flow;
* asynchronous boundaries become schedulable actions (`WAct` / `TAct`): a
  producer write, the producer's `end` call, a work completion (the work
  contract says the completion callback fires exactly once per dispatch,
  which the step function enforces by removing the work id from `inFlight`),
  the host's deferred write-continuation (Node defers `afterWrite` /
  `clearBuffer` to a tick when `_write` completes synchronously; we model the
  continuation as a counter `onwrites` drained by a scheduled action, which
  yields a superset of the real interleavings), and the completion of a
  user-supplied `flush`;
* synchronous emitter cascades (`emit('free')` and `emit('empty')` invoke the
  registered once-listeners immediately, and those listeners re-enter
  `_write` / `end`) are fuel-indexed mutually recursive functions.  An
  out-of-fuel branch parks the pending closure back into the listener queue,
  so every state reached at any fuel satisfies the invariants, and a concrete
  run with sufficient fuel reproduces the JavaScript execution exactly.

The host writable machinery itself (Node's `stream.Writable`) is not part of
the repository; it is modelled from its documented contract as used by the
source: `write` dispatches directly when no write is outstanding and buffers
otherwise, buffered chunks are handed to `_write` in FIFO order by the write
continuation, and `finish` is emitted once `end()` has been called, the
buffer is empty and no write is outstanding (Node of the era targeted by the
source does not gate `finish` on a previously emitted `error`).
-/

namespace ConcurrentStream

/-- The two kinds of finalize hook a writable stage can carry: the default
installed by the constructor (`function(callback) { callback(); }`, which
completes immediately with no error) or a user-supplied asynchronous one. -/
inductive FlushKind where
  | default
  | user
deriving DecidableEq, Repr

/-- A `once`-listener registered on the `free` event: either a deferred
`_write` retry holding its chunk, or a deferred `end` retry holding the
optional trailing chunk and whether a final callback was supplied. -/
inductive WFree where
  | retryWrite (chunk : Nat)
  | retryEnd (chunk : Option Nat) (cb : Bool)
deriving DecidableEq, Repr

/-- Ghost record of one work dispatch: the chunk, the work id, whether the
error flag was already set at the instant of dispatch, and the value of
`pending` just after the increment. -/
structure WDispatch where
  chunk : Nat
  workId : Nat
  errAtDispatch : Bool
  pendingAfter : Int
deriving DecidableEq, Repr

/-- Ghost record of one work completion for the writable stage: the work id,
whether it reported an error, and `pending` just after the decrement. -/
structure WCompletion where
  workId : Nat
  err : Bool
  pendingAfter : Int
deriving DecidableEq, Repr

/-- Ghost snapshot taken at the instant the finalize hook is invoked. -/
structure WFlushSnap where
  pending : Int
  errorEmitted : Bool
  bufLen : Nat
deriving DecidableEq, Repr

/-- State of a writable stage built by `module.exports.writable`. -/
structure WState where
  /-- `options.concurrency || 1`, fixed at construction. -/
  concurrency : Nat
  /-- which finalize hook was installed at construction. -/
  flushKind : FlushKind
  /-- `writable.pending`. -/
  pending : Int
  /-- `writable._writableState.errorEmitted`. -/
  errorEmitted : Bool
  /-- number of `error` events emitted (ghost). -/
  errorEvents : Nat
  /-- number of invocations of `fail` (ghost), i.e. failures reported. -/
  failCalls : Nat
  /-- the host stream's internal buffer (`internal()` in the source). -/
  hostBuffer : List Nat
  /-- host flag: a `_write` has been handed a chunk and has not called back. -/
  writing : Bool
  /-- pending host write-continuations (deferred `afterWrite` ticks). -/
  onwrites : Nat
  /-- the underlying `end()` has been called (`_writableState.ending`). -/
  ended : Bool
  /-- `finish` has been emitted. -/
  finished : Bool
  /-- number of `finish` events emitted (ghost). -/
  finishEvents : Nat
  /-- a final callback has been attached via `on('finish', callback)`. -/
  finishCb : Bool
  /-- registered `once('free')` listeners, in registration order. -/
  freeListeners : List WFree
  /-- registered `once('empty')` listeners (deferred `end` calls). -/
  emptyListeners : List (Option Nat × Bool)
  /-- work ids dispatched and not yet completed. -/
  inFlight : List Nat
  /-- next fresh work id. -/
  nextId : Nat
  /-- the finalize hook has been invoked and its callback not yet fired. -/
  flushActive : Bool
  /-- number of invocations of the finalize hook (ghost). -/
  flushCalled : Nat
  /-- ghost: every dispatch in order. -/
  dispatched : List WDispatch
  /-- ghost: every completion in order. -/
  completions : List WCompletion
  /-- ghost: snapshot at each finalize invocation. -/
  flushSnaps : List WFlushSnap
  /-- ghost: every chunk handed to the host `write`, in producer order. -/
  writesIssued : List Nat
deriving DecidableEq, Repr

namespace Writable

/-- `function fail(err)` (src/index.js lines 46-51): emit `error` once,
guarded by the host's `errorEmitted` flag. -/
def fail (s : WState) : WState :=
  if s.errorEmitted then { s with failCalls := s.failCalls + 1 }
  else { s with failCalls := s.failCalls + 1, errorEmitted := true,
                errorEvents := s.errorEvents + 1 }

/-- Host machinery: emit `finish` when `end()` has been called, the internal
buffer is empty, no write is outstanding and `finish` was not yet emitted. -/
def finishMaybe (s : WState) : WState :=
  if s.ended = true ∧ s.hostBuffer = [] ∧ s.writing = false ∧ s.finished = false then
    { s with finished := true, finishEvents := s.finishEvents + 1 }
  else s

/-- The underlying `end()` captured at line 71 of the source: mark the stream
as ending (idempotent in the host) and emit `finish` if everything drained. -/
def realEnd (s : WState) : WState :=
  if s.ended then s else finishMaybe { s with ended := true }

/-- Chunks held by deferred `_write` retries among the `free` listeners. -/
def blockedOf (ls : List WFree) : List Nat :=
  ls.filterMap fun l => match l with
    | .retryWrite c => some c
    | .retryEnd _ _ => none

/-- Number of deferred `end` retries among the `free` listeners. -/
def endCount (ls : List WFree) : Nat :=
  (ls.filterMap fun l => match l with
    | .retryWrite _ => none
    | .retryEnd c cb => some (c, cb)).length

/-- The synchronous block of `_write` lines 60-61 and 67: increment
`pending`, hand the chunk to `work` (the ghost dispatch record carries the
error flag and the incremented counter at this instant; the completion
callback becomes a schedulable action on the fresh work id) and call the
host `callback()` (one more deferred write-continuation). -/
def dispatch (s : WState) (chunk : Nat) : WState :=
  { s with
    pending := s.pending + 1,
    inFlight := s.inFlight ++ [s.nextId],
    nextId := s.nextId + 1,
    dispatched := s.dispatched ++ [⟨chunk, s.nextId, s.errorEmitted, s.pending + 1⟩],
    onwrites := s.onwrites + 1 }

/-- Line 104: `if (callback) writable.on('finish', callback)`. -/
def attachCb (s : WState) (cb : Bool) : WState :=
  if cb then { s with finishCb := true } else s

/-- The instant the finalize hook is invoked (line 106), with its ghost
snapshot of `pending`, the error flag and the host-buffer length. -/
def invokeFlush (s : WState) : WState :=
  { s with
    flushCalled := s.flushCalled + 1,
    flushSnaps := s.flushSnaps ++ [⟨s.pending, s.errorEmitted, s.hostBuffer.length⟩] }

/-- Lines 62 and the ghost completion record: decrement `pending` and retire
the work id. -/
def completeEntry (s : WState) (wid : Nat) (err : Bool) : WState :=
  { s with
    pending := s.pending - 1,
    inFlight := s.inFlight.erase wid,
    completions := s.completions ++ [⟨wid, err, s.pending - 1⟩] }

mutual

/-- `writable._write` (src/index.js lines 53-69).  If `pending` has reached
the concurrency limit, defer the whole call on a `once('free')` listener.
Otherwise increment `pending`, dispatch the chunk to `work` (recording the
ghost dispatch entry; the completion callback becomes a schedulable action),
call the host `callback()` (modelled as one deferred write-continuation), and
emit `empty` when the host buffer is empty.  Out of fuel: park the call as
the `free` listener it would have become. -/
def write : Nat → WState → Nat → WState
  | 0, s, chunk => { s with freeListeners := s.freeListeners ++ [.retryWrite chunk] }
  | f + 1, s, chunk =>
    if (s.concurrency : Int) ≤ s.pending then
      { s with freeListeners := s.freeListeners ++ [.retryWrite chunk] }
    else if s.hostBuffer = [] then emitEmpty f (dispatch s chunk)
    else dispatch s chunk

/-- The host's `writable.write` as called by the producer and by the
trailing-chunk branch of `end`: dispatch into `_write` directly when no
write is outstanding, otherwise append to the internal buffer. -/
def hostWrite : Nat → WState → Nat → WState
  | 0, s, chunk =>
    if s.writing then { s with writesIssued := s.writesIssued ++ [chunk],
                               hostBuffer := s.hostBuffer ++ [chunk] }
    else { s with writesIssued := s.writesIssued ++ [chunk], writing := true,
                  freeListeners := s.freeListeners ++ [.retryWrite chunk] }
  | f + 1, s, chunk =>
    if s.writing then { s with writesIssued := s.writesIssued ++ [chunk],
                               hostBuffer := s.hostBuffer ++ [chunk] }
    else write f { s with writesIssued := s.writesIssued ++ [chunk], writing := true } chunk

/-- `writable.end` (src/index.js lines 73-110).  Defer on `empty` while the
host buffer is non-empty, then on `free` while `pending` is non-zero; write a
trailing chunk if one was supplied and defer once more; otherwise bail out if
an error was emitted, attach the final callback to `finish`, and invoke the
finalize hook (the default hook completes immediately and calls the
underlying `end()`; a user hook completes via a scheduled action).  The
`typeof` argument juggling of lines 86-94 is the untyped encoding of the
optional arguments and is rendered by the `Option` parameters.  Out of fuel:
park the call as the `free` listener it may become. -/
def endFn : Nat → WState → Option Nat → Bool → WState
  | 0, s, ch, cb => { s with freeListeners := s.freeListeners ++ [.retryEnd ch cb] }
  | f + 1, s, ch, cb =>
    if s.hostBuffer ≠ [] then
      { s with emptyListeners := s.emptyListeners ++ [(ch, cb)] }
    else if s.pending ≠ 0 then
      { s with freeListeners := s.freeListeners ++ [.retryEnd ch cb] }
    else
      match ch with
      | some c =>
        { hostWrite f s c with
          freeListeners := (hostWrite f s c).freeListeners ++ [.retryEnd none cb] }
      | none =>
        if s.errorEmitted then s
        else
          match s.flushKind with
          | .default => realEnd (invokeFlush (attachCb s cb))
          | .user => { invokeFlush (attachCb s cb) with flushActive := true }

/-- `emit('empty')`: snapshot the `once('empty')` listeners, clear them and
invoke each (a deferred `end`) in registration order. -/
def emitEmpty : Nat → WState → WState
  | 0, s => s
  | f + 1, s =>
    let ls := s.emptyListeners
    runEmpty f { s with emptyListeners := [] } ls

/-- Invoke a snapshot of `empty` listeners in order.  Out of fuel: park the
remaining listeners back. -/
def runEmpty : Nat → WState → List (Option Nat × Bool) → WState
  | 0, s, ls => { s with emptyListeners := s.emptyListeners ++ ls }
  | _ + 1, s, [] => s
  | f + 1, s, (ch, cb) :: ls => runEmpty f (endFn f s ch cb) ls

/-- `emit('free')`: snapshot the `once('free')` listeners, clear them and
invoke each in registration order. -/
def emitFree : Nat → WState → WState
  | 0, s => s
  | f + 1, s =>
    let ls := s.freeListeners
    runFree f { s with freeListeners := [] } ls

/-- Invoke a snapshot of `free` listeners in order.  Out of fuel: park the
remaining listeners back. -/
def runFree : Nat → WState → List WFree → WState
  | 0, s, ls => { s with freeListeners := s.freeListeners ++ ls }
  | _ + 1, s, [] => s
  | f + 1, s, WFree.retryWrite c :: ls => runFree f (write f s c) ls
  | f + 1, s, WFree.retryEnd ch cb :: ls => runFree f (endFn f s ch cb) ls

end

/-- The completion callback handed to `work` (src/index.js lines 61-65):
decrement `pending`, emit `free`, and only then report a failure through
`fail`.  The work contract guarantees the callback fires exactly once, so the
step function only enables this for a work id still in flight. -/
def complete (f : Nat) (s : WState) (wid : Nat) (err : Bool) : WState :=
  if err then fail (emitFree f (completeEntry s wid err))
  else emitFree f (completeEntry s wid err)

/-- The host's deferred write-continuation (Node's `afterWrite` tick for a
synchronously completed `_write`): clear the `writing` flag, hand the next
buffered chunk to `_write` if there is one, then check for `finish`. -/
def onwrite (f : Nat) (s : WState) : WState :=
  match s.hostBuffer with
  | [] => finishMaybe { s with writing := false }
  | c :: rest => finishMaybe (write f { s with hostBuffer := rest, writing := true } c)

/-- The completion callback handed to the user finalize hook
(src/index.js lines 106-109): on error report through `fail`, otherwise call
the underlying `end()`. -/
def flushDone (s : WState) (err : Bool) : WState :=
  if s.flushActive then
    if err then fail { s with flushActive := false }
    else realEnd { s with flushActive := false }
  else s

/-- One schedulable event of a writable-stage execution.  Each carries the
fuel bound for the synchronous cascade it triggers. -/
inductive WAct where
  /-- the producer writes a chunk. -/
  | write (fuel : Nat) (chunk : Nat)
  /-- the producer calls `end` with an optional trailing chunk and an
  optional final callback. -/
  | endCall (fuel : Nat) (chunk : Option Nat) (cb : Bool)
  /-- the completion callback of a dispatched work invocation fires. -/
  | complete (fuel : Nat) (wid : Nat) (err : Bool)
  /-- the completion callback of a user finalize hook fires. -/
  | flushDone (err : Bool)
  /-- a deferred host write-continuation runs. -/
  | onwrite (fuel : Nat)
deriving DecidableEq, Repr

/-- Interpret one event.  Disabled events (a completion for a work id not in
flight, a finalize completion with no finalize outstanding, a continuation
with none pending, a producer write after the stream ended) are no-ops. -/
def step (s : WState) (a : WAct) : WState :=
  match a with
  | .write f c => if s.ended then s else hostWrite f s c
  | .endCall f ch cb => endFn f s ch cb
  | .complete f wid err => if wid ∈ s.inFlight then complete f s wid err else s
  | .flushDone err => flushDone s err
  | .onwrite f => if s.onwrites ≠ 0 then onwrite f { s with onwrites := s.onwrites - 1 } else s

/-- Run a schedule of events. -/
def run (s : WState) (acts : List WAct) : WState :=
  acts.foldl step s

/-- Whether one event is an `endCall`. -/
def endWeight (a : WAct) : Nat :=
  match a with
  | WAct.endCall _ _ _ => 1
  | _ => 0

/-- Number of `endCall` events in a schedule. -/
def endCalls (acts : List WAct) : Nat :=
  (acts.map endWeight).sum

end Writable

/-- The stream options object: only `concurrency` is interpreted by the
source; all other options pass through to the host stream. -/
structure Opts where
  concurrency : Option Nat
deriving DecidableEq, Repr

/-- `options.concurrency || 1`: a missing or falsy (zero) concurrency option
yields 1. -/
def jsConcurrency (oc : Option Nat) : Nat :=
  match oc with
  | some (k + 1) => k + 1
  | _ => 1

/-- The second argument of `writable(work, flush, options)` as supplied by
the caller: a finalize function, an options object (the two-argument call
pattern), or absent. -/
inductive WArg2 where
  | flushFn (k : FlushKind)
  | optionsObj (o : Opts)
  | noArg
deriving DecidableEq, Repr

namespace Writable

/-- `module.exports.writable` (src/index.js lines 28-44): normalize the
arguments (`typeof flush === 'object'` shifts an options object out of the
`flush` slot and installs the default finalize hook; a missing `flush` also
gets the default), default the options, read the concurrency limit, and
build the initial stage state. -/
def init (arg2 : WArg2) (arg3 : Option Opts) : WState :=
  let pair : FlushKind × Option Opts :=
    match arg2 with
    | .optionsObj o => (FlushKind.default, some o)
    | .flushFn k => (k, arg3)
    | .noArg => (FlushKind.default, arg3)
  let opts : Opts := pair.2.getD ⟨none⟩
  { concurrency := jsConcurrency opts.concurrency
    flushKind := pair.1
    pending := 0
    errorEmitted := false
    errorEvents := 0
    failCalls := 0
    hostBuffer := []
    writing := false
    onwrites := 0
    ended := false
    finished := false
    finishEvents := 0
    finishCb := false
    freeListeners := []
    emptyListeners := []
    inFlight := []
    nextId := 0
    flushActive := false
    flushCalled := 0
    dispatched := []
    completions := []
    flushSnaps := []
    writesIssued := [] }

end Writable

/-- Ghost record of one work completion for the transform stage: the work id,
whether it reported an error, the (possibly null) output value it supplied,
and `pending` just after the decrement. -/
structure TCompletion where
  workId : Nat
  err : Bool
  data : Option Nat
  pendingAfter : Int
deriving DecidableEq, Repr

/-- Ghost snapshot taken at the instant the transform's `end` invokes the
underlying `end()`: `pending` and the number of work invocations still in
flight at that instant. -/
structure TEndSnap where
  pending : Int
  inFlightLen : Nat
deriving DecidableEq, Repr

/-- State of a transform stage built by `module.exports.transform`.  The
writable-side host machinery is the same as for the writable stage; the
readable side is modelled by the `pushed` trace (each `transform.push(data)`
appends, i.e. the value is emitted downstream immediately) with an
always-consuming downstream. -/
structure TState where
  /-- `options.concurrency || 1`, fixed at construction. -/
  concurrency : Nat
  /-- `transform.pending`. -/
  pending : Int
  /-- `transform._writableState.errorEmitted`. -/
  errorEmitted : Bool
  /-- number of `error` events emitted (ghost). -/
  errorEvents : Nat
  /-- number of invocations of `fail` (ghost). -/
  failCalls : Nat
  /-- the host stream's internal write buffer. -/
  hostBuffer : List Nat
  /-- host flag: a `_transform` call has not yet called back. -/
  writing : Bool
  /-- pending host write-continuations. -/
  onwrites : Nat
  /-- the underlying `end()` has been called. -/
  ended : Bool
  /-- `finish` has been emitted. -/
  finished : Bool
  /-- number of `finish` events emitted (ghost). -/
  finishEvents : Nat
  /-- a final callback has been attached via `on('finish', callback)`. -/
  finishCb : Bool
  /-- registered `once('free')` listeners, in registration order. -/
  freeListeners : List WFree
  /-- work ids dispatched and not yet completed. -/
  inFlight : List Nat
  /-- next fresh work id. -/
  nextId : Nat
  /-- the values pushed downstream, in emission order. -/
  pushed : List Nat
  /-- ghost: every dispatch in order. -/
  dispatched : List WDispatch
  /-- ghost: every completion in order. -/
  completions : List TCompletion
  /-- ghost: snapshot at each invocation of the underlying `end()`. -/
  endSnaps : List TEndSnap
  /-- ghost: every chunk handed to the host `write`, in producer order. -/
  writesIssued : List Nat
deriving DecidableEq, Repr

namespace Transform

/-- `function fail(err)` (src/index.js lines 149-154). -/
def fail (s : TState) : TState :=
  if s.errorEmitted then { s with failCalls := s.failCalls + 1 }
  else { s with failCalls := s.failCalls + 1, errorEmitted := true,
                errorEvents := s.errorEvents + 1 }

/-- Host machinery: emit `finish` when `end()` has been called, the internal
buffer is empty, no write is outstanding and `finish` was not yet emitted. -/
def finishMaybe (s : TState) : TState :=
  if s.ended = true ∧ s.hostBuffer = [] ∧ s.writing = false ∧ s.finished = false then
    { s with finished := true, finishEvents := s.finishEvents + 1 }
  else s

/-- Ghost snapshot of `pending` and the in-flight set at the instant the
underlying `end()` is invoked. -/
def snapEnd (s : TState) : TState :=
  { s with endSnaps := s.endSnaps ++ [⟨s.pending, s.inFlight.length⟩] }

/-- Line 200: `if (callback) transform.on('finish', callback)`. -/
def attachCb (s : TState) (cb : Bool) : TState :=
  if cb then { s with finishCb := true } else s

/-- The underlying `end()` captured at line 174 of the source, with the ghost
snapshot taken at the instant it is invoked. -/
def realEnd (s : TState) : TState :=
  if s.ended then snapEnd s else finishMaybe { snapEnd s with ended := true }

/-- The synchronous block of `_transform` lines 163-164 and 171: increment
`pending`, hand the chunk to `work` and call the host `callback()`. -/
def dispatch (s : TState) (chunk : Nat) : TState :=
  { s with
    pending := s.pending + 1,
    inFlight := s.inFlight ++ [s.nextId],
    nextId := s.nextId + 1,
    dispatched := s.dispatched ++ [⟨chunk, s.nextId, s.errorEmitted, s.pending + 1⟩],
    onwrites := s.onwrites + 1 }

/-- Line 165 and the ghost completion record: decrement `pending` and retire
the work id. -/
def completeEntry (s : TState) (wid : Nat) (err : Bool) (data : Option Nat) : TState :=
  { s with
    pending := s.pending - 1,
    inFlight := s.inFlight.erase wid,
    completions := s.completions ++ [⟨wid, err, data, s.pending - 1⟩] }

/-- Line 167: `transform.push(data)` for a non-null value. -/
def pushData (s : TState) (data : Option Nat) : TState :=
  match data with
  | some d => { s with pushed := s.pushed ++ [d] }
  | none => s

mutual

/-- `transform._transform` (src/index.js lines 156-172): identical admission
logic to `writable._write`, but without the `empty` emission.  Out of fuel:
park the call as the `free` listener it would have become. -/
def transform_ : Nat → TState → Nat → TState
  | 0, s, chunk => { s with freeListeners := s.freeListeners ++ [.retryWrite chunk] }
  | _ + 1, s, chunk =>
    if (s.concurrency : Int) ≤ s.pending then
      { s with freeListeners := s.freeListeners ++ [.retryWrite chunk] }
    else dispatch s chunk

/-- The host's `transform.write` as called by the producer and by the
trailing-chunk branch of `end`. -/
def hostWrite : Nat → TState → Nat → TState
  | 0, s, chunk =>
    if s.writing then { s with writesIssued := s.writesIssued ++ [chunk],
                               hostBuffer := s.hostBuffer ++ [chunk] }
    else { s with writesIssued := s.writesIssued ++ [chunk], writing := true,
                  freeListeners := s.freeListeners ++ [.retryWrite chunk] }
  | f + 1, s, chunk =>
    if s.writing then { s with writesIssued := s.writesIssued ++ [chunk],
                               hostBuffer := s.hostBuffer ++ [chunk] }
    else transform_ f { s with writesIssued := s.writesIssued ++ [chunk],
                               writing := true } chunk

/-- `transform.end` (src/index.js lines 176-204).  Unlike the writable
variant there is no host-buffer check and no finalize hook: defer on `free`
while `pending` is non-zero, write a trailing chunk if one was supplied and
defer once more; otherwise attach the final callback to `finish`, bail out if
an error was emitted, and call the underlying `end()`. -/
def endFn : Nat → TState → Option Nat → Bool → TState
  | 0, s, ch, cb => { s with freeListeners := s.freeListeners ++ [.retryEnd ch cb] }
  | f + 1, s, ch, cb =>
    if s.pending ≠ 0 then
      { s with freeListeners := s.freeListeners ++ [.retryEnd ch cb] }
    else
      match ch with
      | some c =>
        { hostWrite f s c with
          freeListeners := (hostWrite f s c).freeListeners ++ [.retryEnd none cb] }
      | none =>
        if s.errorEmitted then attachCb s cb
        else realEnd (attachCb s cb)

/-- `emit('free')` on the transform stage. -/
def emitFree : Nat → TState → TState
  | 0, s => s
  | f + 1, s =>
    let ls := s.freeListeners
    runFree f { s with freeListeners := [] } ls

/-- Invoke a snapshot of `free` listeners in order.  Out of fuel: park the
remaining listeners back. -/
def runFree : Nat → TState → List WFree → TState
  | 0, s, ls => { s with freeListeners := s.freeListeners ++ ls }
  | _ + 1, s, [] => s
  | f + 1, s, WFree.retryWrite c :: ls => runFree f (transform_ f s c) ls
  | f + 1, s, WFree.retryEnd ch cb :: ls => runFree f (endFn f s ch cb) ls

end

/-- The completion callback handed to `work` (src/index.js lines 164-169):
decrement `pending`, report a failure through `fail` or push a non-null
output value downstream, then emit `free`.  Note the order differs from the
writable variant: the failure is recorded before `free` is emitted. -/
def complete (f : Nat) (s : TState) (wid : Nat) (err : Bool) (data : Option Nat) : TState :=
  if err then emitFree f (fail (completeEntry s wid err data))
  else emitFree f (pushData (completeEntry s wid err data) data)

/-- The host's deferred write-continuation for the transform stage. -/
def onwrite (f : Nat) (s : TState) : TState :=
  match s.hostBuffer with
  | [] => finishMaybe { s with writing := false }
  | c :: rest => finishMaybe (transform_ f { s with hostBuffer := rest, writing := true } c)

/-- One schedulable event of a transform-stage execution. -/
inductive TAct where
  | write (fuel : Nat) (chunk : Nat)
  | endCall (fuel : Nat) (chunk : Option Nat) (cb : Bool)
  | complete (fuel : Nat) (wid : Nat) (err : Bool) (data : Option Nat)
  | onwrite (fuel : Nat)
deriving DecidableEq, Repr

/-- Interpret one event; disabled events are no-ops. -/
def step (s : TState) (a : TAct) : TState :=
  match a with
  | .write f c => if s.ended then s else hostWrite f s c
  | .endCall f ch cb => endFn f s ch cb
  | .complete f wid err data =>
      if wid ∈ s.inFlight then complete f s wid err data else s
  | .onwrite f => if s.onwrites ≠ 0 then onwrite f { s with onwrites := s.onwrites - 1 } else s

/-- Run a schedule of events. -/
def run (s : TState) (acts : List TAct) : TState :=
  acts.foldl step s

/-- `module.exports.transform` (src/index.js lines 142-147). -/
def init (options : Option Opts) : TState :=
  let opts : Opts := options.getD ⟨none⟩
  { concurrency := jsConcurrency opts.concurrency
    pending := 0
    errorEmitted := false
    errorEvents := 0
    failCalls := 0
    hostBuffer := []
    writing := false
    onwrites := 0
    ended := false
    finished := false
    finishEvents := 0
    finishCb := false
    freeListeners := []
    inFlight := []
    nextId := 0
    pushed := []
    dispatched := []
    completions := []
    endSnaps := []
    writesIssued := [] }

end Transform

/-! ## Invariants

`Core` collects the counting facts of a stage state (the pending counter
mirrors the in-flight set, the error / finish flags mirror their event
counts, the ghost snapshots record only good instants).  `HostH s hb`
collects the host-scheduling facts, generalized over a list `hb` of chunks
whose deferred `_write` retries are momentarily "in hand" inside an emitter
cascade: at most one write can be blocked at a time, a blocked write or a
non-empty buffer implies a write is outstanding, and the pipeline equation
says the chunks ever issued are exactly the dispatched ones followed by the
blocked one followed by the buffered ones — i.e. admission is FIFO. -/

namespace Writable

/-- Abstract potential bounding how many finalize invocations can still
happen: deferred `end` retries plus finalize invocations already made. -/
def wTok (s : WState) : Nat :=
  s.emptyListeners.length + endCount s.freeListeners + s.flushCalled

/-- Counting invariants of a writable-stage state. -/
structure Core (s : WState) : Prop where
  pendEq : s.pending = (s.inFlight.length : Int)
  pendLe : s.pending ≤ (s.concurrency : Int)
  dispOk : ∀ d ∈ s.dispatched, 0 < d.pendingAfter ∧ d.pendingAfter ≤ (s.concurrency : Int)
  compOk : ∀ e ∈ s.completions, 0 ≤ e.pendingAfter
  errEq : s.errorEvents = if s.errorEmitted then 1 else 0
  errIff : s.errorEmitted = true ↔ 1 ≤ s.failCalls
  finEq : s.finishEvents = if s.finished then 1 else 0
  finEnded : s.finished = true → s.ended = true
  endedFlush : s.ended = true → 1 ≤ s.flushCalled
  actFlush : s.flushActive = true → 1 ≤ s.flushCalled
  flushOk : ∀ e ∈ s.flushSnaps, e.pending = 0 ∧ e.errorEmitted = false ∧ e.bufLen = 0

/-- Host-scheduling invariants, with the chunks of in-hand write retries
`hb` sitting between the dispatched and the blocked chunks. -/
structure HostH (s : WState) (hb : List Nat) : Prop where
  bufW : s.hostBuffer ≠ [] → s.writing = true
  blkW : hb ++ blockedOf s.freeListeners ≠ [] → s.writing = true
  blkO : hb ++ blockedOf s.freeListeners ≠ [] → s.onwrites = 0
  onwLe : s.onwrites ≤ 1
  nwO : s.writing = false → s.onwrites = 0
  blkOne : (hb ++ blockedOf s.freeListeners).length ≤ 1
  pipe : s.dispatched.map (·.chunk) ++ hb ++ blockedOf s.freeListeners ++ s.hostBuffer
    = s.writesIssued

/-- Host invariants with no cascade in progress. -/
abbrev Host (s : WState) : Prop := HostH s []

/-- Entry facts of `_write` holding chunk `c`: nothing else is blocked, a
write is outstanding (this one), no continuation is pending, and `c` sits
between the dispatched and the buffered chunks. -/
structure AtWrite (s : WState) (c : Nat) : Prop where
  bufW : s.hostBuffer ≠ [] → s.writing = true
  blkNil : blockedOf s.freeListeners = []
  wrT : s.writing = true
  onwZ : s.onwrites = 0
  pipe : s.dispatched.map (·.chunk) ++ c :: s.hostBuffer = s.writesIssued

/-- State components a cascade never touches. -/
def Link (s t : WState) : Prop :=
  t.concurrency = s.concurrency ∧ t.completions = s.completions

end Writable

namespace Transform

/-- The downstream emissions predicted by the completion trace: the non-null
outputs of the completions that did not report an error, in completion
order. -/
def pushedOf (cs : List TCompletion) : List Nat :=
  cs.filterMap fun e => if e.err then none else e.data

/-- Modelled from the claim's words, for comparison with the code: the
completions "occurring before any error" are the error-free prefix of the
completion trace (a failing completion is the first error and stops it). -/
def beforeFirstError (cs : List TCompletion) : List TCompletion :=
  cs.takeWhile fun e => !e.err

/-- Counting invariants of a transform-stage state. -/
structure Core (s : TState) : Prop where
  pendEq : s.pending = (s.inFlight.length : Int)
  pendLe : s.pending ≤ (s.concurrency : Int)
  dispOk : ∀ d ∈ s.dispatched, 0 < d.pendingAfter ∧ d.pendingAfter ≤ (s.concurrency : Int)
  compOk : ∀ e ∈ s.completions, 0 ≤ e.pendingAfter
  errEq : s.errorEvents = if s.errorEmitted then 1 else 0
  errIff : s.errorEmitted = true ↔ 1 ≤ s.failCalls
  finEq : s.finishEvents = if s.finished then 1 else 0
  finEnded : s.finished = true → s.ended = true
  endSnapOk : ∀ e ∈ s.endSnaps, e.pending = 0 ∧ e.inFlightLen = 0
  pushEq : s.pushed = pushedOf s.completions

/-- Host-scheduling invariants (same machinery as the writable stage). -/
structure HostH (s : TState) (hb : List Nat) : Prop where
  bufW : s.hostBuffer ≠ [] → s.writing = true
  blkW : hb ++ Writable.blockedOf s.freeListeners ≠ [] → s.writing = true
  blkO : hb ++ Writable.blockedOf s.freeListeners ≠ [] → s.onwrites = 0
  onwLe : s.onwrites ≤ 1
  nwO : s.writing = false → s.onwrites = 0
  blkOne : (hb ++ Writable.blockedOf s.freeListeners).length ≤ 1
  pipe : s.dispatched.map (·.chunk) ++ hb ++ Writable.blockedOf s.freeListeners ++ s.hostBuffer
    = s.writesIssued

/-- Host invariants with no cascade in progress. -/
abbrev Host (s : TState) : Prop := HostH s []

/-- Entry facts of `_transform` holding chunk `c`. -/
structure AtWrite (s : TState) (c : Nat) : Prop where
  bufW : s.hostBuffer ≠ [] → s.writing = true
  blkNil : Writable.blockedOf s.freeListeners = []
  wrT : s.writing = true
  onwZ : s.onwrites = 0
  pipe : s.dispatched.map (·.chunk) ++ c :: s.hostBuffer = s.writesIssued

/-- State components a cascade never touches. -/
def Link (s t : TState) : Prop :=
  t.concurrency = s.concurrency ∧ t.completions = s.completions ∧ t.pushed = s.pushed

end Transform

/-! ## Preservation of the invariants: writable stage -/

namespace Writable

theorem blockedOf_nil : blockedOf [] = [] := rfl

theorem blockedOf_cons_w (c : Nat) (ls : List WFree) :
    blockedOf (WFree.retryWrite c :: ls) = c :: blockedOf ls := rfl

theorem blockedOf_cons_e (ch : Option Nat) (cb : Bool) (ls : List WFree) :
    blockedOf (WFree.retryEnd ch cb :: ls) = blockedOf ls := rfl

theorem blockedOf_append (l1 l2 : List WFree) :
    blockedOf (l1 ++ l2) = blockedOf l1 ++ blockedOf l2 := by
  simp [blockedOf]

theorem endCount_nil : endCount [] = 0 := rfl

theorem endCount_cons_w (c : Nat) (ls : List WFree) :
    endCount (WFree.retryWrite c :: ls) = endCount ls := rfl

theorem endCount_cons_e (ch : Option Nat) (cb : Bool) (ls : List WFree) :
    endCount (WFree.retryEnd ch cb :: ls) = endCount ls + 1 := by
  simp [endCount, List.filterMap_cons]

theorem endCount_append (l1 l2 : List WFree) :
    endCount (l1 ++ l2) = endCount l1 + endCount l2 := by
  simp [endCount]

theorem link_rfl (s : WState) : Link s s := ⟨rfl, rfl⟩

theorem link_trans {s t u : WState} (h1 : Link s t) (h2 : Link t u) : Link s u :=
  ⟨h2.1.trans h1.1, h2.2.trans h1.2⟩

/-- Rebuild `Core` across a state change that leaves every counted field
unchanged. -/
theorem core_of {s t : WState} (h : Core s)
    (e1 : t.pending = s.pending) (e2 : t.inFlight = s.inFlight)
    (e3 : t.concurrency = s.concurrency) (e4 : t.dispatched = s.dispatched)
    (e5 : t.completions = s.completions) (e6 : t.errorEvents = s.errorEvents)
    (e7 : t.errorEmitted = s.errorEmitted) (e8 : t.failCalls = s.failCalls)
    (e9 : t.finishEvents = s.finishEvents) (e10 : t.finished = s.finished)
    (e11 : t.ended = s.ended) (e12 : t.flushCalled = s.flushCalled)
    (e13 : t.flushActive = s.flushActive) (e14 : t.flushSnaps = s.flushSnaps) :
    Core t := by
  refine ⟨?_, ?_, ?_, ?_, ?_, ?_, ?_, ?_, ?_, ?_, ?_⟩ <;>
    simp only [e1, e2, e3, e4, e5, e6, e7, e8, e9, e10, e11, e12, e13, e14]
  exacts [h.pendEq, h.pendLe, h.dispOk, h.compOk, h.errEq, h.errIff, h.finEq,
    h.finEnded, h.endedFlush, h.actFlush, h.flushOk]

/-- Rebuild `HostH` across a state change that leaves every host field
unchanged. -/
theorem hostH_of {s t : WState} {hb : List Nat} (h : HostH s hb)
    (e1 : t.hostBuffer = s.hostBuffer) (e2 : t.writing = s.writing)
    (e3 : t.onwrites = s.onwrites) (e4 : t.freeListeners = s.freeListeners)
    (e5 : t.dispatched = s.dispatched) (e6 : t.writesIssued = s.writesIssued) :
    HostH t hb := by
  refine ⟨?_, ?_, ?_, ?_, ?_, ?_, ?_⟩ <;> simp only [e1, e2, e3, e4, e5, e6]
  exacts [h.bufW, h.blkW, h.blkO, h.onwLe, h.nwO, h.blkOne, h.pipe]

theorem wTok_of {s t : WState} (e1 : t.emptyListeners = s.emptyListeners)
    (e2 : t.freeListeners = s.freeListeners) (e3 : t.flushCalled = s.flushCalled) :
    wTok t = wTok s := by
  simp [wTok, e1, e2, e3]

theorem attachCb_eq (s : WState) (cb : Bool) :
    attachCb s cb = { s with finishCb := cb || s.finishCb } := by
  unfold attachCb
  cases cb <;> simp

theorem fail_core {s : WState} (h : Core s) : Core (fail s) := by
  unfold fail
  split
  · rename_i he
    exact ⟨h.pendEq, h.pendLe, h.dispOk, h.compOk, h.errEq,
      ⟨fun h2 => Nat.le_succ_of_le (h.errIff.mp h2), fun _ => he⟩,
      h.finEq, h.finEnded, h.endedFlush, h.actFlush, h.flushOk⟩
  · rename_i he
    have he0 : s.errorEmitted = false := by
      cases hx : s.errorEmitted
      · rfl
      · exact absurd hx he
    refine ⟨h.pendEq, h.pendLe, h.dispOk, h.compOk, ?_, ?_, h.finEq, h.finEnded,
      h.endedFlush, h.actFlush, h.flushOk⟩
    · have h0 : s.errorEvents = 0 := by simp [h.errEq, he0]
      simp [h0]
    · exact ⟨fun _ => Nat.succ_le_succ (Nat.zero_le _), fun _ => rfl⟩

theorem fail_host {s : WState} {hb : List Nat} (h : HostH s hb) : HostH (fail s) hb := by
  unfold fail
  split
  · exact hostH_of h rfl rfl rfl rfl rfl rfl
  · exact hostH_of h rfl rfl rfl rfl rfl rfl

theorem fail_wTok (s : WState) : wTok (fail s) = wTok s := by
  unfold fail
  split <;> rfl

theorem fail_link (s : WState) : Link s (fail s) := by
  unfold fail
  split <;> exact ⟨rfl, rfl⟩

theorem finishMaybe_core {s : WState} (h : Core s) : Core (finishMaybe s) := by
  unfold finishMaybe
  split
  · rename_i hcond
    obtain ⟨he, _, _, hf⟩ := hcond
    refine ⟨h.pendEq, h.pendLe, h.dispOk, h.compOk, h.errEq, h.errIff, ?_,
      fun _ => he, h.endedFlush, h.actFlush, h.flushOk⟩
    have h0 : s.finishEvents = 0 := by simp [h.finEq, hf]
    simp [h0]
  · exact h

theorem finishMaybe_host {s : WState} {hb : List Nat} (h : HostH s hb) :
    HostH (finishMaybe s) hb := by
  unfold finishMaybe
  split
  · exact hostH_of h rfl rfl rfl rfl rfl rfl
  · exact h

theorem finishMaybe_wTok (s : WState) : wTok (finishMaybe s) = wTok s := by
  unfold finishMaybe
  split <;> rfl

theorem finishMaybe_link (s : WState) : Link s (finishMaybe s) := by
  unfold finishMaybe
  split <;> exact ⟨rfl, rfl⟩

theorem realEnd_core {s : WState} (h : Core s) (hf : 1 ≤ s.flushCalled) :
    Core (realEnd s) := by
  unfold realEnd
  split
  · exact h
  · exact finishMaybe_core ⟨h.pendEq, h.pendLe, h.dispOk, h.compOk, h.errEq, h.errIff,
      h.finEq, fun _ => rfl, fun _ => hf, h.actFlush, h.flushOk⟩

theorem realEnd_host {s : WState} {hb : List Nat} (h : HostH s hb) :
    HostH (realEnd s) hb := by
  unfold realEnd
  split
  · exact h
  · exact finishMaybe_host (hostH_of h rfl rfl rfl rfl rfl rfl)

theorem realEnd_wTok (s : WState) : wTok (realEnd s) = wTok s := by
  unfold realEnd
  split
  · rfl
  · exact finishMaybe_wTok _

theorem realEnd_link (s : WState) : Link s (realEnd s) := by
  unfold realEnd
  split
  · exact ⟨rfl, rfl⟩
  · exact finishMaybe_link _

theorem dispatch_core {s : WState} {c : Nat} (h : Core s)
    (hlt : ¬((s.concurrency : Int) ≤ s.pending)) : Core (dispatch s c) := by
  have hge : (0 : Int) ≤ s.pending := by
    rw [h.pendEq]
    exact Int.natCast_nonneg _
  refine ⟨?_, ?_, ?_, h.compOk, h.errEq, h.errIff, h.finEq, h.finEnded, h.endedFlush,
    h.actFlush, h.flushOk⟩
  · show s.pending + 1 = ((s.inFlight ++ [s.nextId]).length : Int)
    rw [List.length_append, h.pendEq]
    push_cast [List.length_singleton]
    ring
  · show s.pending + 1 ≤ (s.concurrency : Int)
    omega
  · intro d hd
    rcases List.mem_append.mp hd with hm | hm
    · exact h.dispOk d hm
    · have hde : d = ⟨c, s.nextId, s.errorEmitted, s.pending + 1⟩ := by simpa using hm
      subst hde
      constructor
      · show (0 : Int) < s.pending + 1
        omega
      · show s.pending + 1 ≤ (s.concurrency : Int)
        omega

theorem dispatch_host {s : WState} {c : Nat} (ha : AtWrite s c) : Host (dispatch s c) := by
  unfold dispatch
  refine ⟨fun hne => ha.bufW hne, fun _ => ha.wrT, ?_, ?_, ?_, ?_, ?_⟩
  · intro hx
    exact absurd (by simpa using ha.blkNil) hx
  · simp [ha.onwZ]
  · intro hw
    exact absurd ha.wrT (by simp_all)
  · simp [ha.blkNil]
  · simpa [ha.blkNil] using ha.pipe

/-- The invariants survive parking a blocked `_write` as a `free` listener. -/
theorem parkWrite_inv {s : WState} {c : Nat} (hc : Core s) (ha : AtWrite s c) :
    Core { s with freeListeners := s.freeListeners ++ [.retryWrite c] } ∧
    Host { s with freeListeners := s.freeListeners ++ [.retryWrite c] } ∧
    wTok { s with freeListeners := s.freeListeners ++ [.retryWrite c] } ≤ wTok s ∧
    Link s { s with freeListeners := s.freeListeners ++ [.retryWrite c] } := by
  refine ⟨core_of hc rfl rfl rfl rfl rfl rfl rfl rfl rfl rfl rfl rfl rfl rfl,
    ⟨ha.bufW, fun _ => ha.wrT, fun _ => ha.onwZ, by show s.onwrites ≤ 1; simp [ha.onwZ],
      fun _ => ha.onwZ, ?_, ?_⟩, ?_, ⟨rfl, rfl⟩⟩
  · show (([] : List Nat) ++ blockedOf (s.freeListeners ++ [WFree.retryWrite c])).length ≤ 1
    simp [blockedOf_append, ha.blkNil, blockedOf_cons_w, blockedOf_nil]
  · show s.dispatched.map (·.chunk) ++ []
      ++ blockedOf (s.freeListeners ++ [WFree.retryWrite c]) ++ s.hostBuffer = s.writesIssued
    simpa [blockedOf_append, ha.blkNil, blockedOf_cons_w, blockedOf_nil] using ha.pipe
  · exact le_of_eq (by simp [wTok, endCount_append, endCount_cons_w, endCount_nil])

/-- The invariants survive parking a deferred `end` as a `free` listener. -/
theorem parkEnd_inv {s : WState} {ch : Option Nat} {cb : Bool} {hb : List Nat}
    (hc : Core s) (hh : HostH s hb) :
    Core { s with freeListeners := s.freeListeners ++ [.retryEnd ch cb] } ∧
    HostH { s with freeListeners := s.freeListeners ++ [.retryEnd ch cb] } hb ∧
    wTok { s with freeListeners := s.freeListeners ++ [.retryEnd ch cb] } ≤ wTok s + 1 ∧
    Link s { s with freeListeners := s.freeListeners ++ [.retryEnd ch cb] } := by
  refine ⟨core_of hc rfl rfl rfl rfl rfl rfl rfl rfl rfl rfl rfl rfl rfl rfl,
    ⟨hh.bufW, ?_, ?_, hh.onwLe, hh.nwO, ?_, ?_⟩, ?_, ⟨rfl, rfl⟩⟩
  · intro hx
    refine hh.blkW ?_
    simpa [blockedOf_append, blockedOf_cons_e, blockedOf_nil] using hx
  · intro hx
    refine hh.blkO ?_
    simpa [blockedOf_append, blockedOf_cons_e, blockedOf_nil] using hx
  · show (hb ++ blockedOf (s.freeListeners ++ [WFree.retryEnd ch cb])).length ≤ 1
    simpa [blockedOf_append, blockedOf_cons_e, blockedOf_nil] using hh.blkOne
  · show s.dispatched.map (·.chunk) ++ hb
      ++ blockedOf (s.freeListeners ++ [WFree.retryEnd ch cb]) ++ s.hostBuffer = s.writesIssued
    simpa [blockedOf_append, blockedOf_cons_e, blockedOf_nil] using hh.pipe
  · exact le_of_eq (by simp [wTok, endCount_append, endCount_cons_e, endCount_nil]; omega)

/-- The invariants survive the host buffering a chunk while a write is
outstanding. -/
theorem hostBufAppend_inv {s : WState} {c : Nat} {hb : List Nat}
    (hc : Core s) (hh : HostH s hb) (hw : s.writing = true) :
    Core { s with writesIssued := s.writesIssued ++ [c],
                  hostBuffer := s.hostBuffer ++ [c] } ∧
    HostH { s with writesIssued := s.writesIssued ++ [c],
                   hostBuffer := s.hostBuffer ++ [c] } hb ∧
    wTok { s with writesIssued := s.writesIssued ++ [c],
                  hostBuffer := s.hostBuffer ++ [c] } ≤ wTok s ∧
    Link s { s with writesIssued := s.writesIssued ++ [c],
                    hostBuffer := s.hostBuffer ++ [c] } := by
  refine ⟨core_of hc rfl rfl rfl rfl rfl rfl rfl rfl rfl rfl rfl rfl rfl rfl,
    ⟨fun _ => hw, hh.blkW, hh.blkO, hh.onwLe,
      fun hwf => absurd hw (by simp [show s.writing = false from hwf]),
      hh.blkOne, ?_⟩, le_refl _, ⟨rfl, rfl⟩⟩
  show s.dispatched.map (·.chunk) ++ hb ++ blockedOf s.freeListeners
    ++ (s.hostBuffer ++ [c]) = s.writesIssued ++ [c]
  rw [← hh.pipe]
  simp

theorem invokeFlush_core {s : WState} (h : Core s) (hp : s.pending = 0)
    (he : s.errorEmitted = false) (hbuf : s.hostBuffer = []) : Core (invokeFlush s) := by
  refine ⟨h.pendEq, h.pendLe, h.dispOk, h.compOk, h.errEq, h.errIff, h.finEq, h.finEnded,
    fun _ => Nat.succ_le_succ (Nat.zero_le _), fun _ => Nat.succ_le_succ (Nat.zero_le _), ?_⟩
  intro e hemem
  rcases List.mem_append.mp hemem with hm | hm
  · exact h.flushOk e hm
  · have hee : e = ⟨s.pending, s.errorEmitted, s.hostBuffer.length⟩ := by simpa using hm
    subst hee
    exact ⟨hp, he, by simp [hbuf]⟩

theorem invokeFlush_host {s : WState} {hb : List Nat} (h : HostH s hb) :
    HostH (invokeFlush s) hb :=
  hostH_of h rfl rfl rfl rfl rfl rfl

/-- Joint preservation of the invariants by every function of the emitter
cascade, at every fuel, by mutual induction on the fuel. -/
theorem master (f : Nat) :
    (∀ s c, Core s → AtWrite s c →
      Core (write f s c) ∧ Host (write f s c) ∧ wTok (write f s c) ≤ wTok s ∧
        Link s (write f s c))
  ∧ (∀ s c hb, Core s → HostH s hb →
      Core (hostWrite f s c) ∧ HostH (hostWrite f s c) hb ∧
        wTok (hostWrite f s c) ≤ wTok s ∧ Link s (hostWrite f s c))
  ∧ (∀ s ch cb hb, Core s → HostH s hb →
      Core (endFn f s ch cb) ∧ HostH (endFn f s ch cb) hb ∧
        wTok (endFn f s ch cb) ≤ wTok s + 1 ∧ Link s (endFn f s ch cb))
  ∧ (∀ s, Core s → Host s →
      Core (emitEmpty f s) ∧ Host (emitEmpty f s) ∧ wTok (emitEmpty f s) ≤ wTok s ∧
        Link s (emitEmpty f s))
  ∧ (∀ s ls, Core s → Host s →
      Core (runEmpty f s ls) ∧ Host (runEmpty f s ls) ∧
        wTok (runEmpty f s ls) ≤ wTok s + ls.length ∧ Link s (runEmpty f s ls))
  ∧ (∀ s, Core s → Host s →
      Core (emitFree f s) ∧ Host (emitFree f s) ∧ wTok (emitFree f s) ≤ wTok s ∧
        Link s (emitFree f s))
  ∧ (∀ s ls, Core s → HostH s (blockedOf ls) →
      Core (runFree f s ls) ∧ Host (runFree f s ls) ∧
        wTok (runFree f s ls) ≤ wTok s + endCount ls ∧ Link s (runFree f s ls)) := by
  induction f with
  | zero =>
    refine ⟨?_, ?_, ?_, ?_, ?_, ?_, ?_⟩
    · intro s c hc ha
      simpa only [write] using parkWrite_inv hc ha
    · intro s c hb hc hh
      simp only [hostWrite]
      split
      · rename_i hw
        exact hostBufAppend_inv hc hh hw
      · rename_i hw
        have hwf : s.writing = false := by
          cases hx : s.writing
          · rfl
          · exact absurd hx hw
        have hnil : hb ++ blockedOf s.freeListeners = [] := by
          by_contra hne
          exact absurd (hh.blkW hne) (by simp [hwf])
        obtain ⟨hb0, hbl0⟩ := List.append_eq_nil.mp hnil
        have hbuf : s.hostBuffer = [] := by
          by_contra hne
          exact absurd (hh.bufW hne) (by simp [hwf])
        have honw : s.onwrites = 0 := hh.nwO hwf
        subst hb0
        have hmap : s.dispatched.map (·.chunk) = s.writesIssued := by
          simpa [hbl0, hbuf] using hh.pipe
        refine ⟨core_of hc rfl rfl rfl rfl rfl rfl rfl rfl rfl rfl rfl rfl rfl rfl,
          ⟨fun _ => rfl, fun _ => rfl, fun _ => honw, by simp [honw], fun _ => honw,
            ?_, ?_⟩, ?_, ⟨rfl, rfl⟩⟩
        · simp [blockedOf_append, hbl0, blockedOf_cons_w, blockedOf_nil]
        · show s.dispatched.map (·.chunk) ++ []
            ++ blockedOf (s.freeListeners ++ [WFree.retryWrite c]) ++ s.hostBuffer
            = s.writesIssued ++ [c]
          simp [blockedOf_append, hbl0, blockedOf_cons_w, blockedOf_nil, hbuf, hmap]
        · exact le_of_eq (by simp [wTok, endCount_append, endCount_cons_w, endCount_nil])
    · intro s ch cb hb hc hh
      simpa only [endFn] using parkEnd_inv hc hh
    · intro s hc hh
      exact ⟨hc, hh, le_refl _, link_rfl s⟩
    · intro s ls hc hh
      simp only [runEmpty]
      refine ⟨core_of hc rfl rfl rfl rfl rfl rfl rfl rfl rfl rfl rfl rfl rfl rfl,
        hostH_of hh rfl rfl rfl rfl rfl rfl, ?_, ⟨rfl, rfl⟩⟩
      exact le_of_eq (by simp [wTok]; omega)
    · intro s hc hh
      exact ⟨hc, hh, le_refl _, link_rfl s⟩
    · intro s ls hc hh
      simp only [runFree]
      have hone := hh.blkOne
      refine ⟨core_of hc rfl rfl rfl rfl rfl rfl rfl rfl rfl rfl rfl rfl rfl rfl,
        ⟨hh.bufW, ?_, ?_, hh.onwLe, hh.nwO, ?_, ?_⟩, ?_, ⟨rfl, rfl⟩⟩
      · intro hx
        refine hh.blkW ?_
        simp only [blockedOf_append, List.nil_append] at hx ⊢
        simp only [ne_eq, List.append_eq_nil] at hx ⊢
        tauto
      · intro hx
        refine hh.blkO ?_
        simp only [blockedOf_append, List.nil_append] at hx ⊢
        simp only [ne_eq, List.append_eq_nil] at hx ⊢
        tauto
      · simp only [blockedOf_append, List.nil_append, List.length_append] at hone ⊢
        omega
      · show s.dispatched.map (·.chunk) ++ []
          ++ blockedOf (s.freeListeners ++ ls) ++ s.hostBuffer = s.writesIssued
        cases hls : blockedOf ls with
        | nil => simpa [blockedOf_append, hls] using hh.pipe
        | cons x xs =>
          have hfr : blockedOf s.freeListeners = [] := by
            refine List.eq_nil_of_length_eq_zero ?_
            simp only [List.length_append, hls] at hone
            simp at hone
            omega
          simpa [blockedOf_append, hls, hfr] using hh.pipe
      · exact le_of_eq (by simp [wTok, endCount_append]; omega)
  | succ f ih =>
    obtain ⟨ihW, ihH, ihE, ihEE, ihRE, ihEF, ihRF⟩ := ih
    refine ⟨?_, ?_, ?_, ?_, ?_, ?_, ?_⟩
    -- `_write`
    · intro s c hc ha
      simp only [write]
      split
      · exact parkWrite_inv hc ha
      · rename_i hlt
        split
        · rename_i hbuf
          obtain ⟨h1, h2, h3, h4⟩ := ihEE (dispatch s c) (dispatch_core hc hlt)
            (dispatch_host ha)
          exact ⟨h1, h2, h3, h4⟩
        · exact ⟨dispatch_core hc hlt, dispatch_host ha, le_refl _, ⟨rfl, rfl⟩⟩
    -- the host `write`
    · intro s c hb hc hh
      simp only [hostWrite]
      split
      · rename_i hw
        exact hostBufAppend_inv hc hh hw
      · rename_i hw
        have hwf : s.writing = false := by
          cases hx : s.writing
          · rfl
          · exact absurd hx hw
        have hnil : hb ++ blockedOf s.freeListeners = [] := by
          by_contra hne
          exact absurd (hh.blkW hne) (by simp [hwf])
        obtain ⟨hb0, hbl0⟩ := List.append_eq_nil.mp hnil
        have hbuf : s.hostBuffer = [] := by
          by_contra hne
          exact absurd (hh.bufW hne) (by simp [hwf])
        have honw : s.onwrites = 0 := hh.nwO hwf
        subst hb0
        have hmap : s.dispatched.map (·.chunk) = s.writesIssued := by
          simpa [hbl0, hbuf] using hh.pipe
        have hcw :
            Core { s with writesIssued := s.writesIssued ++ [c], writing := true } :=
          core_of hc rfl rfl rfl rfl rfl rfl rfl rfl rfl rfl rfl rfl rfl rfl
        have haw :
            AtWrite { s with writesIssued := s.writesIssued ++ [c], writing := true } c := by
          refine ⟨fun _ => rfl, hbl0, rfl, honw, ?_⟩
          show s.dispatched.map (·.chunk) ++ c :: s.hostBuffer = s.writesIssued ++ [c]
          simp [hbuf, hmap]
        obtain ⟨h1, h2, h3, h4⟩ :=
          ihW { s with writesIssued := s.writesIssued ++ [c], writing := true } c hcw haw
        exact ⟨h1, h2, h3, h4⟩
    -- `end`
    · intro s ch cb hb hc hh
      simp only [endFn]
      split
      · rename_i hbne
        refine ⟨core_of hc rfl rfl rfl rfl rfl rfl rfl rfl rfl rfl rfl rfl rfl rfl,
          hostH_of hh rfl rfl rfl rfl rfl rfl, ?_, ⟨rfl, rfl⟩⟩
        simp only [wTok]
        simp
        omega
      · split
        · rename_i hbe hpne
          exact parkEnd_inv hc hh
        · rename_i hbe hpne
          have hbuf : s.hostBuffer = [] := not_not.mp hbe
          have hpend : s.pending = 0 := not_not.mp hpne
          split
          · rename_i c
            obtain ⟨h1, h2, h3, h4⟩ := ihH s c hb hc hh
            refine ⟨core_of h1 rfl rfl rfl rfl rfl rfl rfl rfl rfl rfl rfl rfl rfl rfl,
              ⟨h2.bufW, ?_, ?_, h2.onwLe, h2.nwO, ?_, ?_⟩, ?_, ⟨h4.1, h4.2⟩⟩
            · intro hx
              refine h2.blkW ?_
              simpa [blockedOf_append, blockedOf_cons_e, blockedOf_nil] using hx
            · intro hx
              refine h2.blkO ?_
              simpa [blockedOf_append, blockedOf_cons_e, blockedOf_nil] using hx
            · show (hb ++ blockedOf ((hostWrite f s c).freeListeners
                ++ [WFree.retryEnd none cb])).length ≤ 1
              simpa [blockedOf_append, blockedOf_cons_e, blockedOf_nil] using h2.blkOne
            · show (hostWrite f s c).dispatched.map (·.chunk) ++ hb
                ++ blockedOf ((hostWrite f s c).freeListeners ++ [WFree.retryEnd none cb])
                ++ (hostWrite f s c).hostBuffer = (hostWrite f s c).writesIssued
              simpa [blockedOf_append, blockedOf_cons_e, blockedOf_nil] using h2.pipe
            · show wTok { hostWrite f s c with
                freeListeners := (hostWrite f s c).freeListeners
                  ++ [WFree.retryEnd none cb] } ≤ wTok s + 1
              have h5 : wTok { hostWrite f s c with
                  freeListeners := (hostWrite f s c).freeListeners
                    ++ [WFree.retryEnd none cb] } = wTok (hostWrite f s c) + 1 := by
                simp [wTok, endCount_append, endCount_cons_e, endCount_nil]
                omega
              omega
          · split
            · exact ⟨hc, hh, Nat.le_add_right _ _, link_rfl s⟩
            · rename_i herr
              have herr0 : s.errorEmitted = false := by
                cases hx : s.errorEmitted
                · rfl
                · exact absurd hx herr
              rw [attachCb_eq]
              have hcu : Core { s with finishCb := cb || s.finishCb } :=
                core_of hc rfl rfl rfl rfl rfl rfl rfl rfl rfl rfl rfl rfl rfl rfl
              have hhu : HostH { s with finishCb := cb || s.finishCb } hb :=
                hostH_of hh rfl rfl rfl rfl rfl rfl
              have hci : Core (invokeFlush { s with finishCb := cb || s.finishCb }) :=
                invokeFlush_core hcu hpend herr0 hbuf
              have hhi : HostH (invokeFlush { s with finishCb := cb || s.finishCb }) hb :=
                invokeFlush_host hhu
              split
              · -- default finalize hook: completes immediately, calls the real end
                refine ⟨realEnd_core hci (Nat.succ_le_succ (Nat.zero_le _)),
                  realEnd_host hhi, ?_, ?_⟩
                · have h5 := realEnd_wTok (invokeFlush { s with finishCb := cb || s.finishCb })
                  have h6 : wTok (invokeFlush { s with finishCb := cb || s.finishCb })
                      = wTok s + 1 := by
                    simp [wTok, invokeFlush]
                    omega
                  omega
                · have h7 := realEnd_link (invokeFlush { s with finishCb := cb || s.finishCb })
                  exact link_trans (⟨rfl, rfl⟩ :
                    Link s (invokeFlush { s with finishCb := cb || s.finishCb })) h7
              · -- user finalize hook: record the outstanding invocation
                refine ⟨⟨hci.pendEq, hci.pendLe, hci.dispOk, hci.compOk, hci.errEq,
                  hci.errIff, hci.finEq, hci.finEnded, hci.endedFlush,
                  fun _ => Nat.succ_le_succ (Nat.zero_le _), hci.flushOk⟩,
                  hostH_of hhi rfl rfl rfl rfl rfl rfl, ?_, ⟨rfl, rfl⟩⟩
                exact le_of_eq (by simp [wTok, invokeFlush]; omega)
    -- `emit('empty')`
    · intro s hc hh
      simp only [emitEmpty]
      obtain ⟨h1, h2, h3, h4⟩ := ihRE { s with emptyListeners := [] } s.emptyListeners
        (core_of hc rfl rfl rfl rfl rfl rfl rfl rfl rfl rfl rfl rfl rfl rfl)
        (hostH_of hh rfl rfl rfl rfl rfl rfl)
      refine ⟨h1, h2, ?_, h4⟩
      have he1 : wTok { s with emptyListeners := ([] : List (Option Nat × Bool)) }
          = endCount s.freeListeners + s.flushCalled := by
        simp [wTok]
      have he2 : wTok s
          = s.emptyListeners.length + endCount s.freeListeners + s.flushCalled := rfl
      rw [he1] at h3
      rw [he2]
      omega
    -- invoking a snapshot of `empty` listeners
    · intro s ls hc hh
      match ls with
      | [] =>
        simp only [runEmpty]
        exact ⟨hc, hh, Nat.le_add_right _ _, link_rfl s⟩
      | (ch, cb) :: ls =>
        simp only [runEmpty]
        obtain ⟨h1, h2, h3, h4⟩ := ihE s ch cb [] hc hh
        obtain ⟨h5, h6, h7, h8⟩ := ihRE (endFn f s ch cb) ls h1 h2
        refine ⟨h5, h6, ?_, link_trans h4 h8⟩
        simp only [List.length_cons]
        omega
    -- `emit('free')`
    · intro s hc hh
      simp only [emitFree]
      have hme : blockedOf ({ s with freeListeners := ([] : List WFree) }).freeListeners
          = [] := rfl
      have hhand : HostH { s with freeListeners := ([] : List WFree) }
          (blockedOf s.freeListeners) := by
        refine ⟨hh.bufW, ?_, ?_, hh.onwLe, hh.nwO, ?_, ?_⟩
        · intro hx
          rw [hme, List.append_nil] at hx
          exact hh.blkW (by rwa [List.nil_append])
        · intro hx
          rw [hme, List.append_nil] at hx
          exact hh.blkO (by rwa [List.nil_append])
        · rw [hme, List.append_nil]
          have hp := hh.blkOne
          rwa [List.nil_append] at hp
        · show s.dispatched.map (·.chunk) ++ blockedOf s.freeListeners
            ++ blockedOf ([] : List WFree) ++ s.hostBuffer = s.writesIssued
          rw [show blockedOf ([] : List WFree) = [] from rfl, List.append_nil]
          have hp := hh.pipe
          rwa [List.append_nil] at hp
      obtain ⟨h1, h2, h3, h4⟩ := ihRF { s with freeListeners := [] } s.freeListeners
        (core_of hc rfl rfl rfl rfl rfl rfl rfl rfl rfl rfl rfl rfl rfl rfl) hhand
      refine ⟨h1, h2, ?_, h4⟩
      have he1 : wTok { s with freeListeners := ([] : List WFree) }
          = s.emptyListeners.length + s.flushCalled := by
        simp [wTok, endCount_nil]
      have he2 : wTok s
          = s.emptyListeners.length + endCount s.freeListeners + s.flushCalled := rfl
      rw [he1] at h3
      rw [he2]
      omega
    -- invoking a snapshot of `free` listeners
    · intro s ls hc hh
      match ls with
      | [] =>
        simp only [runFree]
        exact ⟨hc, hh, Nat.le_add_right _ _, link_rfl s⟩
      | WFree.retryWrite c :: ls =>
        simp only [runFree]
        have hone := hh.blkOne
        have hls : blockedOf ls = [] := by
          simp only [blockedOf_cons_w, List.length_append, List.length_cons] at hone
          exact List.eq_nil_of_length_eq_zero (by omega)
        have hfr : blockedOf s.freeListeners = [] := by
          simp only [blockedOf_cons_w, List.length_append, List.length_cons] at hone
          exact List.eq_nil_of_length_eq_zero (by omega)
        have hat : AtWrite s c := by
          refine ⟨hh.bufW, hfr, hh.blkW (by simp [blockedOf_cons_w]), ?_, ?_⟩
          · exact hh.blkO (by simp [blockedOf_cons_w])
          · have := hh.pipe
            simpa [blockedOf_cons_w, hls, hfr] using this
        obtain ⟨h1, h2, h3, h4⟩ := ihW s c hc hat
        obtain ⟨h5, h6, h7, h8⟩ := ihRF (write f s c) ls h1 (by rw [hls]; exact h2)
        refine ⟨h5, h6, ?_, link_trans h4 h8⟩
        simp only [endCount_cons_w]
        omega
      | WFree.retryEnd ch cb :: ls =>
        simp only [runFree]
        obtain ⟨h1, h2, h3, h4⟩ := ihE s ch cb (blockedOf ls) hc hh
        obtain ⟨h5, h6, h7, h8⟩ := ihRF (endFn f s ch cb) ls h1 h2
        refine ⟨h5, h6, ?_, link_trans h4 h8⟩
        simp only [endCount_cons_e]
        omega

theorem completeEntry_core {s : WState} {wid : Nat} {err : Bool} (h : Core s)
    (hm : wid ∈ s.inFlight) : Core (completeEntry s wid err) := by
  have hlen : 0 < s.inFlight.length := List.length_pos_of_mem hm
  have herase : (s.inFlight.erase wid).length = s.inFlight.length - 1 :=
    List.length_erase_of_mem hm
  have hpe := h.pendEq
  refine ⟨?_, ?_, h.dispOk, ?_, h.errEq, h.errIff, h.finEq, h.finEnded, h.endedFlush,
    h.actFlush, h.flushOk⟩
  · show s.pending - 1 = ((s.inFlight.erase wid).length : Int)
    rw [herase]
    omega
  · show s.pending - 1 ≤ (s.concurrency : Int)
    have := h.pendLe
    omega
  · intro e he
    rcases List.mem_append.mp he with hm2 | hm2
    · exact h.compOk e hm2
    · have he2 : e = ⟨wid, err, s.pending - 1⟩ := by simpa using hm2
      subst he2
      show (0 : Int) ≤ s.pending - 1
      omega

/-- The in-flight work retired by a completion, the `free` cascade it runs
and the subsequent failure report preserve the invariants. -/
theorem complete_inv (f : Nat) {s : WState} {wid : Nat} {err : Bool}
    (hc : Core s) (hh : Host s) (hm : wid ∈ s.inFlight) :
    Core (complete f s wid err) ∧ Host (complete f s wid err) ∧
      wTok (complete f s wid err) ≤ wTok s ∧
      (complete f s wid err).concurrency = s.concurrency := by
  have h1 : Core (completeEntry s wid err) := completeEntry_core hc hm
  have h2 : Host (completeEntry s wid err) := hostH_of hh rfl rfl rfl rfl rfl rfl
  obtain ⟨h3, h4, h5, h6⟩ := (master f).2.2.2.2.2.1 (completeEntry s wid err) h1 h2
  unfold complete
  split
  · refine ⟨fail_core h3, fail_host h4, ?_, ?_⟩
    · rw [fail_wTok]
      exact h5
    · exact ((fail_link _).1.trans h6.1)
  · exact ⟨h3, h4, h5, h6.1⟩

/-- A deferred host write-continuation preserves the invariants. -/
theorem onwrite_inv (f : Nat) {s : WState} (hc : Core s) (hh : Host s)
    (hnz : s.onwrites ≠ 0) :
    Core (onwrite f { s with onwrites := s.onwrites - 1 }) ∧
      Host (onwrite f { s with onwrites := s.onwrites - 1 }) ∧
      wTok (onwrite f { s with onwrites := s.onwrites - 1 }) ≤ wTok s ∧
      (onwrite f { s with onwrites := s.onwrites - 1 }).concurrency = s.concurrency := by
  have hbl : blockedOf s.freeListeners = [] := by
    by_contra hne
    exact hnz (hh.blkO (by simpa using hne))
  have honz : s.onwrites - 1 = 0 := by
    have := hh.onwLe
    omega
  unfold onwrite
  split
  · rename_i heq
    have hc2 : Core { s with onwrites := s.onwrites - 1, writing := false } :=
      core_of hc rfl rfl rfl rfl rfl rfl rfl rfl rfl rfl rfl rfl rfl rfl
    have hbuf : s.hostBuffer = [] := heq
    have hh2 : Host { s with onwrites := s.onwrites - 1, writing := false } := by
      refine ⟨fun hne => absurd hbuf hne, fun hx => absurd (by simp [hbl]) hx,
        fun _ => honz, by simp [honz], fun _ => honz, by simp [hbl], ?_⟩
      show s.dispatched.map (·.chunk) ++ [] ++ blockedOf s.freeListeners
        ++ s.hostBuffer = s.writesIssued
      exact hh.pipe
    exact ⟨finishMaybe_core hc2, finishMaybe_host hh2,
      le_of_eq (finishMaybe_wTok _), (finishMaybe_link _).1⟩
  · rename_i c rest heq
    have hc2 : Core { s with onwrites := s.onwrites - 1, hostBuffer := rest, writing := true } :=
      core_of hc rfl rfl rfl rfl rfl rfl rfl rfl rfl rfl rfl rfl rfl rfl
    have ha2 : AtWrite { s with onwrites := s.onwrites - 1, hostBuffer := rest, writing := true } c := by
      refine ⟨fun _ => rfl, hbl, rfl, honz, ?_⟩
      show s.dispatched.map (·.chunk) ++ c :: rest = s.writesIssued
      have hp := hh.pipe
      rw [List.append_nil, hbl, List.append_nil, heq] at hp
      exact hp
    obtain ⟨h1, h2, h3, h4⟩ :=
      (master f).1 { s with onwrites := s.onwrites - 1, hostBuffer := rest, writing := true } c hc2 ha2
    exact ⟨finishMaybe_core h1, finishMaybe_host h2,
      le_trans (le_of_eq (finishMaybe_wTok _)) h3, (finishMaybe_link _).1.trans h4.1⟩

/-- The completion of a user finalize hook preserves the invariants. -/
theorem flushDone_inv {s : WState} {err : Bool} (hc : Core s) (hh : Host s) :
    Core (flushDone s err) ∧ Host (flushDone s err) ∧
      wTok (flushDone s err) ≤ wTok s ∧
      (flushDone s err).concurrency = s.concurrency := by
  unfold flushDone
  split
  · rename_i hfa
    have hc2 : Core { s with flushActive := false } :=
      ⟨hc.pendEq, hc.pendLe, hc.dispOk, hc.compOk, hc.errEq, hc.errIff, hc.finEq,
        hc.finEnded, hc.endedFlush, fun hx => absurd hx (by simp), hc.flushOk⟩
    have hh2 : Host { s with flushActive := false } :=
      hostH_of hh rfl rfl rfl rfl rfl rfl
    split
    · exact ⟨fail_core hc2, fail_host hh2, le_of_eq (fail_wTok _), (fail_link _).1⟩
    · exact ⟨realEnd_core hc2 (hc.actFlush hfa), realEnd_host hh2,
        le_of_eq (realEnd_wTok _), (realEnd_link _).1⟩
  · exact ⟨hc, hh, le_refl _, rfl⟩

/-- Every schedulable event preserves the invariants, and only an `endCall`
can raise the finalize potential. -/
theorem step_inv {s : WState} (a : WAct) (hc : Core s) (hh : Host s) :
    Core (step s a) ∧ Host (step s a) ∧ wTok (step s a) ≤ wTok s + endWeight a ∧
      (step s a).concurrency = s.concurrency := by
  match a with
  | WAct.write f c =>
    simp only [step]
    split
    · exact ⟨hc, hh, Nat.le_add_right _ _, rfl⟩
    · obtain ⟨h1, h2, h3, h4⟩ := (master f).2.1 s c [] hc hh
      exact ⟨h1, h2, le_trans h3 (Nat.le_add_right _ _), h4.1⟩
  | WAct.endCall f ch cb =>
    simp only [step]
    obtain ⟨h1, h2, h3, h4⟩ := (master f).2.2.1 s ch cb [] hc hh
    exact ⟨h1, h2, h3, h4.1⟩
  | WAct.complete f wid err =>
    simp only [step]
    split
    · rename_i hm
      obtain ⟨h1, h2, h3, h4⟩ := complete_inv f hc hh hm
      exact ⟨h1, h2, le_trans h3 (Nat.le_add_right _ _), h4⟩
    · exact ⟨hc, hh, Nat.le_add_right _ _, rfl⟩
  | WAct.flushDone err =>
    simp only [step]
    obtain ⟨h1, h2, h3, h4⟩ := flushDone_inv hc hh
    exact ⟨h1, h2, le_trans h3 (Nat.le_add_right _ _), h4⟩
  | WAct.onwrite f =>
    simp only [step]
    split
    · rename_i hnz
      obtain ⟨h1, h2, h3, h4⟩ := onwrite_inv f hc hh hnz
      exact ⟨h1, h2, le_trans h3 (Nat.le_add_right _ _), h4⟩
    · exact ⟨hc, hh, Nat.le_add_right _ _, rfl⟩

/-- Invariant preservation along a whole schedule. -/
theorem run_inv (s : WState) (acts : List WAct) (hc : Core s) (hh : Host s) :
    Core (run s acts) ∧ Host (run s acts) ∧
      wTok (run s acts) ≤ wTok s + endCalls acts ∧
      (run s acts).concurrency = s.concurrency := by
  induction acts generalizing s with
  | nil => exact ⟨hc, hh, Nat.le_add_right _ _, rfl⟩
  | cons a acts iha =>
    obtain ⟨h1, h2, h3, h4⟩ := step_inv a hc hh
    obtain ⟨h5, h6, h7, h8⟩ := iha (step s a) h1 h2
    refine ⟨h5, h6, ?_, h8.trans h4⟩
    have he : endCalls (a :: acts) = endWeight a + endCalls acts := by
      simp [endCalls]
    rw [show run s (a :: acts) = run (step s a) acts from rfl, he]
    omega

/-- The constructor's initial state satisfies the invariants with zero
finalize potential. -/
theorem init_inv (arg2 : WArg2) (arg3 : Option Opts) :
    Core (init arg2 arg3) ∧ Host (init arg2 arg3) ∧ wTok (init arg2 arg3) = 0 := by
  refine ⟨⟨?_, ?_, ?_, ?_, ?_, ?_, ?_, ?_, ?_, ?_, ?_⟩,
    ⟨?_, ?_, ?_, ?_, ?_, ?_, ?_⟩, rfl⟩
  · show (0 : Int) = (([] : List Nat).length : Int)
    simp
  · show (0 : Int) ≤ ((init arg2 arg3).concurrency : Int)
    exact Int.natCast_nonneg _
  · intro d hd
    exact absurd hd (List.not_mem_nil d)
  · intro e he
    exact absurd he (List.not_mem_nil e)
  · rfl
  · show false = true ↔ 1 ≤ 0
    simp
  · rfl
  · exact fun h => nomatch h
  · exact fun h => nomatch h
  · exact fun h => nomatch h
  · intro e he
    exact absurd he (List.not_mem_nil e)
  · intro h
    exact absurd (rfl : ([] : List Nat) = []) h
  · intro h
    exact absurd (rfl : ([] : List Nat) ++ blockedOf [] = []) h
  · intro h
    exact absurd (rfl : ([] : List Nat) ++ blockedOf [] = []) h
  · show (0 : Nat) ≤ 1
    simp
  · intro _
    rfl
  · show (([] : List Nat) ++ blockedOf []).length ≤ 1
    simp [blockedOf]
  · rfl

end Writable

/-! ## Preservation of the invariants: transform stage -/

namespace Transform

theorem link_rfl_t (s : TState) : Link s s := ⟨rfl, rfl, rfl⟩

theorem link_trans_t {s t u : TState} (h1 : Link s t) (h2 : Link t u) : Link s u :=
  ⟨h2.1.trans h1.1, h2.2.1.trans h1.2.1, h2.2.2.trans h1.2.2⟩

/-- Rebuild `Core` across a state change that leaves every counted field
unchanged. -/
theorem core_of_t {s t : TState} (h : Core s)
    (e1 : t.pending = s.pending) (e2 : t.inFlight = s.inFlight)
    (e3 : t.concurrency = s.concurrency) (e4 : t.dispatched = s.dispatched)
    (e5 : t.completions = s.completions) (e6 : t.errorEvents = s.errorEvents)
    (e7 : t.errorEmitted = s.errorEmitted) (e8 : t.failCalls = s.failCalls)
    (e9 : t.finishEvents = s.finishEvents) (e10 : t.finished = s.finished)
    (e11 : t.ended = s.ended) (e12 : t.endSnaps = s.endSnaps)
    (e13 : t.pushed = s.pushed) : Core t := by
  refine ⟨?_, ?_, ?_, ?_, ?_, ?_, ?_, ?_, ?_, ?_⟩ <;>
    simp only [e1, e2, e3, e4, e5, e6, e7, e8, e9, e10, e11, e12, e13]
  exacts [h.pendEq, h.pendLe, h.dispOk, h.compOk, h.errEq, h.errIff, h.finEq,
    h.finEnded, h.endSnapOk, h.pushEq]

/-- Rebuild `HostH` across a state change that leaves every host field
unchanged. -/
theorem hostH_of_t {s t : TState} {hb : List Nat} (h : HostH s hb)
    (e1 : t.hostBuffer = s.hostBuffer) (e2 : t.writing = s.writing)
    (e3 : t.onwrites = s.onwrites) (e4 : t.freeListeners = s.freeListeners)
    (e5 : t.dispatched = s.dispatched) (e6 : t.writesIssued = s.writesIssued) :
    HostH t hb := by
  refine ⟨?_, ?_, ?_, ?_, ?_, ?_, ?_⟩ <;> simp only [e1, e2, e3, e4, e5, e6]
  exacts [h.bufW, h.blkW, h.blkO, h.onwLe, h.nwO, h.blkOne, h.pipe]

theorem attachCb_eq_t (s : TState) (cb : Bool) :
    attachCb s cb = { s with finishCb := cb || s.finishCb } := by
  unfold attachCb
  cases cb <;> simp

theorem fail_core_t {s : TState} (h : Core s) : Core (fail s) := by
  unfold fail
  split
  · rename_i he
    exact ⟨h.pendEq, h.pendLe, h.dispOk, h.compOk, h.errEq,
      ⟨fun h2 => Nat.le_succ_of_le (h.errIff.mp h2), fun _ => he⟩,
      h.finEq, h.finEnded, h.endSnapOk, h.pushEq⟩
  · rename_i he
    have he0 : s.errorEmitted = false := by
      cases hx : s.errorEmitted
      · rfl
      · exact absurd hx he
    refine ⟨h.pendEq, h.pendLe, h.dispOk, h.compOk, ?_, ?_, h.finEq, h.finEnded,
      h.endSnapOk, h.pushEq⟩
    · have h0 : s.errorEvents = 0 := by simp [h.errEq, he0]
      simp [h0]
    · exact ⟨fun _ => Nat.succ_le_succ (Nat.zero_le _), fun _ => rfl⟩

theorem fail_host_t {s : TState} {hb : List Nat} (h : HostH s hb) : HostH (fail s) hb := by
  unfold fail
  split
  · exact hostH_of_t h rfl rfl rfl rfl rfl rfl
  · exact hostH_of_t h rfl rfl rfl rfl rfl rfl

theorem fail_pc (s : TState) :
    (fail s).concurrency = s.concurrency ∧ (fail s).pushed = s.pushed ∧
      (fail s).completions = s.completions := by
  unfold fail
  split <;> exact ⟨rfl, rfl, rfl⟩

theorem finishMaybe_core_t {s : TState} (h : Core s) : Core (finishMaybe s) := by
  unfold finishMaybe
  split
  · rename_i hcond
    obtain ⟨he, _, _, hf⟩ := hcond
    refine ⟨h.pendEq, h.pendLe, h.dispOk, h.compOk, h.errEq, h.errIff, ?_,
      fun _ => he, h.endSnapOk, h.pushEq⟩
    have h0 : s.finishEvents = 0 := by simp [h.finEq, hf]
    simp [h0]
  · exact h

theorem finishMaybe_host_t {s : TState} {hb : List Nat} (h : HostH s hb) :
    HostH (finishMaybe s) hb := by
  unfold finishMaybe
  split
  · exact hostH_of_t h rfl rfl rfl rfl rfl rfl
  · exact h

theorem finishMaybe_link_t (s : TState) : Link s (finishMaybe s) := by
  unfold finishMaybe
  split <;> exact ⟨rfl, rfl, rfl⟩

theorem realEnd_core_t {s : TState} (h : Core s) (hp : s.pending = 0) :
    Core (realEnd s) := by
  have hif : s.inFlight.length = 0 := by
    have := h.pendEq
    omega
  have hsnap : Core (snapEnd s) := by
    refine ⟨h.pendEq, h.pendLe, h.dispOk, h.compOk, h.errEq, h.errIff, h.finEq,
      h.finEnded, ?_, h.pushEq⟩
    intro e he
    rcases List.mem_append.mp he with hm | hm
    · exact h.endSnapOk e hm
    · have he2 : e = ⟨s.pending, s.inFlight.length⟩ := by simpa using hm
      subst he2
      exact ⟨hp, hif⟩
  unfold realEnd
  split
  · exact hsnap
  · exact finishMaybe_core_t ⟨hsnap.pendEq, hsnap.pendLe, hsnap.dispOk, hsnap.compOk,
      hsnap.errEq, hsnap.errIff, hsnap.finEq, fun _ => rfl, hsnap.endSnapOk, hsnap.pushEq⟩

theorem realEnd_host_t {s : TState} {hb : List Nat} (h : HostH s hb) :
    HostH (realEnd s) hb := by
  unfold realEnd
  split
  · exact hostH_of_t h rfl rfl rfl rfl rfl rfl
  · exact finishMaybe_host_t (hostH_of_t h rfl rfl rfl rfl rfl rfl)

theorem realEnd_link_t (s : TState) : Link s (realEnd s) := by
  unfold realEnd
  split
  · exact ⟨rfl, rfl, rfl⟩
  · exact link_trans_t (⟨rfl, rfl, rfl⟩ : Link s (snapEnd s))
      (link_trans_t (⟨rfl, rfl, rfl⟩ : Link (snapEnd s) { snapEnd s with ended := true })
        (finishMaybe_link_t _))

theorem dispatch_core_t {s : TState} {c : Nat} (h : Core s)
    (hlt : ¬((s.concurrency : Int) ≤ s.pending)) : Core (dispatch s c) := by
  have hge : (0 : Int) ≤ s.pending := by
    rw [h.pendEq]
    exact Int.natCast_nonneg _
  refine ⟨?_, ?_, ?_, h.compOk, h.errEq, h.errIff, h.finEq, h.finEnded, h.endSnapOk,
    h.pushEq⟩
  · show s.pending + 1 = ((s.inFlight ++ [s.nextId]).length : Int)
    rw [List.length_append, h.pendEq]
    push_cast [List.length_singleton]
    ring
  · show s.pending + 1 ≤ (s.concurrency : Int)
    omega
  · intro d hd
    rcases List.mem_append.mp hd with hm | hm
    · exact h.dispOk d hm
    · have hde : d = ⟨c, s.nextId, s.errorEmitted, s.pending + 1⟩ := by simpa using hm
      subst hde
      constructor
      · show (0 : Int) < s.pending + 1
        omega
      · show s.pending + 1 ≤ (s.concurrency : Int)
        omega

theorem dispatch_host_t {s : TState} {c : Nat} (ha : AtWrite s c) : Host (dispatch s c) := by
  unfold dispatch
  refine ⟨fun hne => ha.bufW hne, fun _ => ha.wrT, ?_, ?_, ?_, ?_, ?_⟩
  · intro hx
    exact absurd (by simpa using ha.blkNil) hx
  · simp [ha.onwZ]
  · intro hw
    exact absurd ha.wrT (by simp_all)
  · simp [ha.blkNil]
  · simpa [ha.blkNil] using ha.pipe

/-- The invariants survive parking a blocked `_transform` as a `free`
listener. -/
theorem parkWrite_inv_t {s : TState} {c : Nat} (hc : Core s) (ha : AtWrite s c) :
    Core { s with freeListeners := s.freeListeners ++ [.retryWrite c] } ∧
    Host { s with freeListeners := s.freeListeners ++ [.retryWrite c] } ∧
    Link s { s with freeListeners := s.freeListeners ++ [.retryWrite c] } := by
  refine ⟨core_of_t hc rfl rfl rfl rfl rfl rfl rfl rfl rfl rfl rfl rfl rfl,
    ⟨ha.bufW, fun _ => ha.wrT, fun _ => ha.onwZ, by show s.onwrites ≤ 1; simp [ha.onwZ],
      fun _ => ha.onwZ, ?_, ?_⟩, ⟨rfl, rfl, rfl⟩⟩
  · show (([] : List Nat)
      ++ Writable.blockedOf (s.freeListeners ++ [WFree.retryWrite c])).length ≤ 1
    simp [Writable.blockedOf_append, ha.blkNil, Writable.blockedOf_cons_w,
      Writable.blockedOf_nil]
  · show s.dispatched.map (·.chunk) ++ []
      ++ Writable.blockedOf (s.freeListeners ++ [WFree.retryWrite c]) ++ s.hostBuffer
      = s.writesIssued
    simpa [Writable.blockedOf_append, ha.blkNil, Writable.blockedOf_cons_w,
      Writable.blockedOf_nil] using ha.pipe

/-- The invariants survive parking a deferred `end` as a `free` listener. -/
theorem parkEnd_inv_t {s : TState} {ch : Option Nat} {cb : Bool} {hb : List Nat}
    (hc : Core s) (hh : HostH s hb) :
    Core { s with freeListeners := s.freeListeners ++ [.retryEnd ch cb] } ∧
    HostH { s with freeListeners := s.freeListeners ++ [.retryEnd ch cb] } hb ∧
    Link s { s with freeListeners := s.freeListeners ++ [.retryEnd ch cb] } := by
  refine ⟨core_of_t hc rfl rfl rfl rfl rfl rfl rfl rfl rfl rfl rfl rfl rfl,
    ⟨hh.bufW, ?_, ?_, hh.onwLe, hh.nwO, ?_, ?_⟩, ⟨rfl, rfl, rfl⟩⟩
  · intro hx
    refine hh.blkW ?_
    simpa [Writable.blockedOf_append, Writable.blockedOf_cons_e,
      Writable.blockedOf_nil] using hx
  · intro hx
    refine hh.blkO ?_
    simpa [Writable.blockedOf_append, Writable.blockedOf_cons_e,
      Writable.blockedOf_nil] using hx
  · show (hb ++ Writable.blockedOf (s.freeListeners ++ [WFree.retryEnd ch cb])).length ≤ 1
    simpa [Writable.blockedOf_append, Writable.blockedOf_cons_e,
      Writable.blockedOf_nil] using hh.blkOne
  · show s.dispatched.map (·.chunk) ++ hb
      ++ Writable.blockedOf (s.freeListeners ++ [WFree.retryEnd ch cb]) ++ s.hostBuffer
      = s.writesIssued
    simpa [Writable.blockedOf_append, Writable.blockedOf_cons_e,
      Writable.blockedOf_nil] using hh.pipe

/-- The invariants survive the host buffering a chunk while a write is
outstanding. -/
theorem hostBufAppend_inv_t {s : TState} {c : Nat} {hb : List Nat}
    (hc : Core s) (hh : HostH s hb) (hw : s.writing = true) :
    Core { s with writesIssued := s.writesIssued ++ [c],
                  hostBuffer := s.hostBuffer ++ [c] } ∧
    HostH { s with writesIssued := s.writesIssued ++ [c],
                   hostBuffer := s.hostBuffer ++ [c] } hb ∧
    Link s { s with writesIssued := s.writesIssued ++ [c],
                    hostBuffer := s.hostBuffer ++ [c] } := by
  refine ⟨core_of_t hc rfl rfl rfl rfl rfl rfl rfl rfl rfl rfl rfl rfl rfl,
    ⟨fun _ => hw, hh.blkW, hh.blkO, hh.onwLe,
      fun hwf => absurd hw (by simp [show s.writing = false from hwf]),
      hh.blkOne, ?_⟩, ⟨rfl, rfl, rfl⟩⟩
  show s.dispatched.map (·.chunk) ++ hb ++ Writable.blockedOf s.freeListeners
    ++ (s.hostBuffer ++ [c]) = s.writesIssued ++ [c]
  rw [← hh.pipe]
  simp

/-- Joint preservation of the invariants by every function of the emitter
cascade, at every fuel, by mutual induction on the fuel. -/
theorem master_t (f : Nat) :
    (∀ s c, Core s → AtWrite s c →
      Core (transform_ f s c) ∧ Host (transform_ f s c) ∧ Link s (transform_ f s c))
  ∧ (∀ s c hb, Core s → HostH s hb →
      Core (hostWrite f s c) ∧ HostH (hostWrite f s c) hb ∧ Link s (hostWrite f s c))
  ∧ (∀ s ch cb hb, Core s → HostH s hb →
      Core (endFn f s ch cb) ∧ HostH (endFn f s ch cb) hb ∧ Link s (endFn f s ch cb))
  ∧ (∀ s, Core s → Host s →
      Core (emitFree f s) ∧ Host (emitFree f s) ∧ Link s (emitFree f s))
  ∧ (∀ s ls, Core s → HostH s (Writable.blockedOf ls) →
      Core (runFree f s ls) ∧ Host (runFree f s ls) ∧ Link s (runFree f s ls)) := by
  induction f with
  | zero =>
    refine ⟨?_, ?_, ?_, ?_, ?_⟩
    · intro s c hc ha
      simpa only [transform_] using parkWrite_inv_t hc ha
    · intro s c hb hc hh
      simp only [hostWrite]
      split
      · rename_i hw
        exact hostBufAppend_inv_t hc hh hw
      · rename_i hw
        have hwf : s.writing = false := by
          cases hx : s.writing
          · rfl
          · exact absurd hx hw
        have hnil : hb ++ Writable.blockedOf s.freeListeners = [] := by
          by_contra hne
          exact absurd (hh.blkW hne) (by simp [hwf])
        obtain ⟨hb0, hbl0⟩ := List.append_eq_nil.mp hnil
        have hbuf : s.hostBuffer = [] := by
          by_contra hne
          exact absurd (hh.bufW hne) (by simp [hwf])
        have honw : s.onwrites = 0 := hh.nwO hwf
        subst hb0
        have hmap : s.dispatched.map (·.chunk) = s.writesIssued := by
          simpa [hbl0, hbuf] using hh.pipe
        refine ⟨core_of_t hc rfl rfl rfl rfl rfl rfl rfl rfl rfl rfl rfl rfl rfl,
          ⟨fun _ => rfl, fun _ => rfl, fun _ => honw, by simp [honw], fun _ => honw,
            ?_, ?_⟩, ⟨rfl, rfl, rfl⟩⟩
        · simp [Writable.blockedOf_append, hbl0, Writable.blockedOf_cons_w,
            Writable.blockedOf_nil]
        · show s.dispatched.map (·.chunk) ++ []
            ++ Writable.blockedOf (s.freeListeners ++ [WFree.retryWrite c]) ++ s.hostBuffer
            = s.writesIssued ++ [c]
          simp [Writable.blockedOf_append, hbl0, Writable.blockedOf_cons_w,
            Writable.blockedOf_nil, hbuf, hmap]
    · intro s ch cb hb hc hh
      simpa only [endFn] using parkEnd_inv_t hc hh
    · intro s hc hh
      exact ⟨hc, hh, link_rfl_t s⟩
    · intro s ls hc hh
      simp only [runFree]
      have hone := hh.blkOne
      refine ⟨core_of_t hc rfl rfl rfl rfl rfl rfl rfl rfl rfl rfl rfl rfl rfl,
        ⟨hh.bufW, ?_, ?_, hh.onwLe, hh.nwO, ?_, ?_⟩, ⟨rfl, rfl, rfl⟩⟩
      · intro hx
        refine hh.blkW ?_
        simp only [Writable.blockedOf_append, List.nil_append] at hx ⊢
        simp only [ne_eq, List.append_eq_nil] at hx ⊢
        tauto
      · intro hx
        refine hh.blkO ?_
        simp only [Writable.blockedOf_append, List.nil_append] at hx ⊢
        simp only [ne_eq, List.append_eq_nil] at hx ⊢
        tauto
      · simp only [Writable.blockedOf_append, List.nil_append, List.length_append]
          at hone ⊢
        omega
      · show s.dispatched.map (·.chunk) ++ []
          ++ Writable.blockedOf (s.freeListeners ++ ls) ++ s.hostBuffer = s.writesIssued
        cases hls : Writable.blockedOf ls with
        | nil => simpa [Writable.blockedOf_append, hls] using hh.pipe
        | cons x xs =>
          have hfr : Writable.blockedOf s.freeListeners = [] := by
            refine List.eq_nil_of_length_eq_zero ?_
            simp only [List.length_append, hls] at hone
            simp at hone
            omega
          simpa [Writable.blockedOf_append, hls, hfr] using hh.pipe
  | succ f ih =>
    obtain ⟨ihW, ihH, ihE, ihEF, ihRF⟩ := ih
    refine ⟨?_, ?_, ?_, ?_, ?_⟩
    -- `_transform`
    · intro s c hc ha
      simp only [transform_]
      split
      · exact parkWrite_inv_t hc ha
      · rename_i hlt
        exact ⟨dispatch_core_t hc hlt, dispatch_host_t ha, ⟨rfl, rfl, rfl⟩⟩
    -- the host `write`
    · intro s c hb hc hh
      simp only [hostWrite]
      split
      · rename_i hw
        exact hostBufAppend_inv_t hc hh hw
      · rename_i hw
        have hwf : s.writing = false := by
          cases hx : s.writing
          · rfl
          · exact absurd hx hw
        have hnil : hb ++ Writable.blockedOf s.freeListeners = [] := by
          by_contra hne
          exact absurd (hh.blkW hne) (by simp [hwf])
        obtain ⟨hb0, hbl0⟩ := List.append_eq_nil.mp hnil
        have hbuf : s.hostBuffer = [] := by
          by_contra hne
          exact absurd (hh.bufW hne) (by simp [hwf])
        have honw : s.onwrites = 0 := hh.nwO hwf
        subst hb0
        have hmap : s.dispatched.map (·.chunk) = s.writesIssued := by
          simpa [hbl0, hbuf] using hh.pipe
        have hcw : Core { s with writesIssued := s.writesIssued ++ [c], writing := true } :=
          core_of_t hc rfl rfl rfl rfl rfl rfl rfl rfl rfl rfl rfl rfl rfl
        have haw :
            AtWrite { s with writesIssued := s.writesIssued ++ [c], writing := true } c := by
          refine ⟨fun _ => rfl, hbl0, rfl, honw, ?_⟩
          show s.dispatched.map (·.chunk) ++ c :: s.hostBuffer = s.writesIssued ++ [c]
          simp [hbuf, hmap]
        obtain ⟨h1, h2, h3⟩ :=
          ihW { s with writesIssued := s.writesIssued ++ [c], writing := true } c hcw haw
        exact ⟨h1, h2, h3⟩
    -- `end`
    · intro s ch cb hb hc hh
      simp only [endFn]
      split
      · rename_i hpne
        exact parkEnd_inv_t hc hh
      · rename_i hpne
        have hpend : s.pending = 0 := not_not.mp hpne
        split
        · rename_i c
          obtain ⟨h1, h2, h3⟩ := ihH s c hb hc hh
          refine ⟨core_of_t h1 rfl rfl rfl rfl rfl rfl rfl rfl rfl rfl rfl rfl rfl,
            ⟨h2.bufW, ?_, ?_, h2.onwLe, h2.nwO, ?_, ?_⟩, ⟨h3.1, h3.2.1, h3.2.2⟩⟩
          · intro hx
            refine h2.blkW ?_
            simpa [Writable.blockedOf_append, Writable.blockedOf_cons_e,
              Writable.blockedOf_nil] using hx
          · intro hx
            refine h2.blkO ?_
            simpa [Writable.blockedOf_append, Writable.blockedOf_cons_e,
              Writable.blockedOf_nil] using hx
          · show (hb ++ Writable.blockedOf ((hostWrite f s c).freeListeners
              ++ [WFree.retryEnd none cb])).length ≤ 1
            simpa [Writable.blockedOf_append, Writable.blockedOf_cons_e,
              Writable.blockedOf_nil] using h2.blkOne
          · show (hostWrite f s c).dispatched.map (·.chunk) ++ hb
              ++ Writable.blockedOf ((hostWrite f s c).freeListeners
                ++ [WFree.retryEnd none cb])
              ++ (hostWrite f s c).hostBuffer = (hostWrite f s c).writesIssued
            simpa [Writable.blockedOf_append, Writable.blockedOf_cons_e,
              Writable.blockedOf_nil] using h2.pipe
        · split
          · rename_i herr
            rw [attachCb_eq_t]
            exact ⟨core_of_t hc rfl rfl rfl rfl rfl rfl rfl rfl rfl rfl rfl rfl rfl,
              hostH_of_t hh rfl rfl rfl rfl rfl rfl, ⟨rfl, rfl, rfl⟩⟩
          · rename_i herr
            rw [attachCb_eq_t]
            have hcu : Core { s with finishCb := cb || s.finishCb } :=
              core_of_t hc rfl rfl rfl rfl rfl rfl rfl rfl rfl rfl rfl rfl rfl
            have hhu : HostH { s with finishCb := cb || s.finishCb } hb :=
              hostH_of_t hh rfl rfl rfl rfl rfl rfl
            refine ⟨realEnd_core_t hcu hpend, realEnd_host_t hhu, ?_⟩
            exact link_trans_t (⟨rfl, rfl, rfl⟩ :
              Link s { s with finishCb := cb || s.finishCb }) (realEnd_link_t _)
    -- `emit('free')`
    · intro s hc hh
      simp only [emitFree]
      have hme : Writable.blockedOf
          ({ s with freeListeners := ([] : List WFree) }).freeListeners = [] := rfl
      have hhand : HostH { s with freeListeners := ([] : List WFree) }
          (Writable.blockedOf s.freeListeners) := by
        refine ⟨hh.bufW, ?_, ?_, hh.onwLe, hh.nwO, ?_, ?_⟩
        · intro hx
          rw [hme, List.append_nil] at hx
          exact hh.blkW (by rwa [List.nil_append])
        · intro hx
          rw [hme, List.append_nil] at hx
          exact hh.blkO (by rwa [List.nil_append])
        · rw [hme, List.append_nil]
          have hp := hh.blkOne
          rwa [List.nil_append] at hp
        · show s.dispatched.map (·.chunk) ++ Writable.blockedOf s.freeListeners
            ++ Writable.blockedOf ([] : List WFree) ++ s.hostBuffer = s.writesIssued
          rw [show Writable.blockedOf ([] : List WFree) = [] from rfl, List.append_nil]
          have hp := hh.pipe
          rwa [List.append_nil] at hp
      obtain ⟨h1, h2, h3⟩ := ihRF { s with freeListeners := [] } s.freeListeners
        (core_of_t hc rfl rfl rfl rfl rfl rfl rfl rfl rfl rfl rfl rfl rfl) hhand
      exact ⟨h1, h2, h3⟩
    -- invoking a snapshot of `free` listeners
    · intro s ls hc hh
      match ls with
      | [] =>
        simp only [runFree]
        exact ⟨hc, hh, link_rfl_t s⟩
      | WFree.retryWrite c :: ls =>
        simp only [runFree]
        have hone := hh.blkOne
        have hls : Writable.blockedOf ls = [] := by
          simp only [Writable.blockedOf_cons_w, List.length_append, List.length_cons]
            at hone
          exact List.eq_nil_of_length_eq_zero (by omega)
        have hfr : Writable.blockedOf s.freeListeners = [] := by
          simp only [Writable.blockedOf_cons_w, List.length_append, List.length_cons]
            at hone
          exact List.eq_nil_of_length_eq_zero (by omega)
        have hat : AtWrite s c := by
          refine ⟨hh.bufW, hfr, hh.blkW (by simp [Writable.blockedOf_cons_w]), ?_, ?_⟩
          · exact hh.blkO (by simp [Writable.blockedOf_cons_w])
          · have hp := hh.pipe
            simpa [Writable.blockedOf_cons_w, hls, hfr] using hp
        obtain ⟨h1, h2, h3⟩ := ihW s c hc hat
        obtain ⟨h4, h5, h6⟩ := ihRF (transform_ f s c) ls h1 (by rw [hls]; exact h2)
        exact ⟨h4, h5, link_trans_t h3 h6⟩
      | WFree.retryEnd ch cb :: ls =>
        simp only [runFree]
        obtain ⟨h1, h2, h3⟩ := ihE s ch cb (Writable.blockedOf ls) hc hh
        obtain ⟨h4, h5, h6⟩ := ihRF (endFn f s ch cb) ls h1 h2
        exact ⟨h4, h5, link_trans_t h3 h6⟩

theorem pushedOf_append (cs1 cs2 : List TCompletion) :
    pushedOf (cs1 ++ cs2) = pushedOf cs1 ++ pushedOf cs2 := by
  simp [pushedOf]

theorem completeEntry_core_err {s : TState} {wid : Nat} {data : Option Nat} (h : Core s)
    (hm : wid ∈ s.inFlight) : Core (completeEntry s wid true data) := by
  have hlen : 0 < s.inFlight.length := List.length_pos_of_mem hm
  have herase : (s.inFlight.erase wid).length = s.inFlight.length - 1 :=
    List.length_erase_of_mem hm
  have hpe := h.pendEq
  refine ⟨?_, ?_, h.dispOk, ?_, h.errEq, h.errIff, h.finEq, h.finEnded, h.endSnapOk, ?_⟩
  · show s.pending - 1 = ((s.inFlight.erase wid).length : Int)
    rw [herase]
    omega
  · show s.pending - 1 ≤ (s.concurrency : Int)
    have := h.pendLe
    omega
  · intro e he
    rcases List.mem_append.mp he with hm2 | hm2
    · exact h.compOk e hm2
    · have he2 : e = ⟨wid, true, data, s.pending - 1⟩ := by simpa using hm2
      subst he2
      show (0 : Int) ≤ s.pending - 1
      omega
  · show s.pushed = pushedOf (s.completions ++ [⟨wid, true, data, s.pending - 1⟩])
    rw [pushedOf_append, h.pushEq]
    simp [pushedOf]

theorem completePush_core {s : TState} {wid : Nat} {data : Option Nat} (h : Core s)
    (hm : wid ∈ s.inFlight) : Core (pushData (completeEntry s wid false data) data) := by
  have hlen : 0 < s.inFlight.length := List.length_pos_of_mem hm
  have herase : (s.inFlight.erase wid).length = s.inFlight.length - 1 :=
    List.length_erase_of_mem hm
  have hpe := h.pendEq
  have hnum : (s.pending - 1 = ((s.inFlight.erase wid).length : Int)) ∧
      (s.pending - 1 ≤ (s.concurrency : Int)) ∧
      (∀ e ∈ s.completions ++ [(⟨wid, false, data, s.pending - 1⟩ : TCompletion)],
        0 ≤ e.pendingAfter) := by
    refine ⟨by rw [herase]; omega, by have := h.pendLe; omega, ?_⟩
    intro e he
    rcases List.mem_append.mp he with hm2 | hm2
    · exact h.compOk e hm2
    · have he2 : e = ⟨wid, false, data, s.pending - 1⟩ := by simpa using hm2
      subst he2
      show (0 : Int) ≤ s.pending - 1
      omega
  match data with
  | none =>
    simp only [pushData]
    refine ⟨hnum.1, hnum.2.1, h.dispOk, hnum.2.2, h.errEq, h.errIff, h.finEq, h.finEnded,
      h.endSnapOk, ?_⟩
    show s.pushed = pushedOf (s.completions ++ [⟨wid, false, none, s.pending - 1⟩])
    rw [pushedOf_append, h.pushEq]
    simp [pushedOf]
  | some d =>
    simp only [pushData]
    refine ⟨hnum.1, hnum.2.1, h.dispOk, hnum.2.2, h.errEq, h.errIff, h.finEq, h.finEnded,
      h.endSnapOk, ?_⟩
    show s.pushed ++ [d] = pushedOf (s.completions ++ [⟨wid, false, some d, s.pending - 1⟩])
    rw [pushedOf_append, h.pushEq]
    simp [pushedOf]

theorem pushData_host {s : TState} {hb : List Nat} (data : Option Nat) (h : HostH s hb) :
    HostH (pushData s data) hb := by
  unfold pushData
  match data with
  | none => exact h
  | some d => exact hostH_of_t h rfl rfl rfl rfl rfl rfl

theorem pushData_conc (s : TState) (data : Option Nat) :
    (pushData s data).concurrency = s.concurrency := by
  unfold pushData
  match data with
  | none => rfl
  | some d => rfl

/-- The in-flight work retired by a completion, its failure report or output
push, and the `free` cascade it runs preserve the invariants. -/
theorem complete_inv_t (f : Nat) {s : TState} {wid : Nat} {err : Bool} {data : Option Nat}
    (hc : Core s) (hh : Host s) (hm : wid ∈ s.inFlight) :
    Core (complete f s wid err data) ∧ Host (complete f s wid err data) ∧
      (complete f s wid err data).concurrency = s.concurrency := by
  unfold complete
  split
  · rename_i herr
    subst herr
    have h1 : Core (fail (completeEntry s wid true data)) :=
      fail_core_t (completeEntry_core_err hc hm)
    have h2 : Host (fail (completeEntry s wid true data)) :=
      fail_host_t (hostH_of_t hh rfl rfl rfl rfl rfl rfl)
    obtain ⟨h3, h4, h5⟩ := (master_t f).2.2.2.1 _ h1 h2
    exact ⟨h3, h4, h5.1.trans (fail_pc _).1⟩
  · rename_i herr
    have herr0 : err = false := by
      cases err
      · rfl
      · exact absurd rfl herr
    subst herr0
    have h1 : Core (pushData (completeEntry s wid false data) data) :=
      completePush_core hc hm
    have h2 : Host (pushData (completeEntry s wid false data) data) :=
      pushData_host data (hostH_of_t hh rfl rfl rfl rfl rfl rfl)
    obtain ⟨h3, h4, h5⟩ := (master_t f).2.2.2.1 _ h1 h2
    exact ⟨h3, h4, h5.1.trans (pushData_conc _ data)⟩

/-- A deferred host write-continuation preserves the invariants. -/
theorem onwrite_inv_t (f : Nat) {s : TState} (hc : Core s) (hh : Host s)
    (hnz : s.onwrites ≠ 0) :
    Core (onwrite f { s with onwrites := s.onwrites - 1 }) ∧
      Host (onwrite f { s with onwrites := s.onwrites - 1 }) ∧
      (onwrite f { s with onwrites := s.onwrites - 1 }).concurrency = s.concurrency := by
  have hbl : Writable.blockedOf s.freeListeners = [] := by
    by_contra hne
    exact hnz (hh.blkO (by simpa using hne))
  have honz : s.onwrites - 1 = 0 := by
    have := hh.onwLe
    omega
  unfold onwrite
  split
  · rename_i heq
    have hc2 : Core { s with onwrites := s.onwrites - 1, writing := false } :=
      core_of_t hc rfl rfl rfl rfl rfl rfl rfl rfl rfl rfl rfl rfl rfl
    have hbuf : s.hostBuffer = [] := heq
    have hh2 : Host { s with onwrites := s.onwrites - 1, writing := false } := by
      refine ⟨fun hne => absurd hbuf hne, fun hx => absurd (by simp [hbl]) hx,
        fun _ => honz, by simp [honz], fun _ => honz, by simp [hbl], ?_⟩
      show s.dispatched.map (·.chunk) ++ [] ++ Writable.blockedOf s.freeListeners
        ++ s.hostBuffer = s.writesIssued
      exact hh.pipe
    exact ⟨finishMaybe_core_t hc2, finishMaybe_host_t hh2, (finishMaybe_link_t _).1⟩
  · rename_i c rest heq
    have hc2 : Core { s with onwrites := s.onwrites - 1, hostBuffer := rest, writing := true } :=
      core_of_t hc rfl rfl rfl rfl rfl rfl rfl rfl rfl rfl rfl rfl rfl
    have ha2 : AtWrite { s with onwrites := s.onwrites - 1, hostBuffer := rest, writing := true } c := by
      refine ⟨fun _ => rfl, hbl, rfl, honz, ?_⟩
      show s.dispatched.map (·.chunk) ++ c :: rest = s.writesIssued
      have hp := hh.pipe
      rw [List.append_nil, hbl, List.append_nil, heq] at hp
      exact hp
    obtain ⟨h1, h2, h3⟩ :=
      (master_t f).1 { s with onwrites := s.onwrites - 1, hostBuffer := rest, writing := true } c hc2 ha2
    exact ⟨finishMaybe_core_t h1, finishMaybe_host_t h2, (finishMaybe_link_t _).1.trans h3.1⟩

/-- Every schedulable event preserves the invariants. -/
theorem step_inv_t {s : TState} (a : TAct) (hc : Core s) (hh : Host s) :
    Core (step s a) ∧ Host (step s a) ∧ (step s a).concurrency = s.concurrency := by
  match a with
  | TAct.write f c =>
    simp only [step]
    split
    · exact ⟨hc, hh, rfl⟩
    · obtain ⟨h1, h2, h3⟩ := (master_t f).2.1 s c [] hc hh
      exact ⟨h1, h2, h3.1⟩
  | TAct.endCall f ch cb =>
    simp only [step]
    obtain ⟨h1, h2, h3⟩ := (master_t f).2.2.1 s ch cb [] hc hh
    exact ⟨h1, h2, h3.1⟩
  | TAct.complete f wid err data =>
    simp only [step]
    split
    · rename_i hm
      exact complete_inv_t f hc hh hm
    · exact ⟨hc, hh, rfl⟩
  | TAct.onwrite f =>
    simp only [step]
    split
    · rename_i hnz
      exact onwrite_inv_t f hc hh hnz
    · exact ⟨hc, hh, rfl⟩

/-- Invariant preservation along a whole schedule. -/
theorem run_inv_t (s : TState) (acts : List TAct) (hc : Core s) (hh : Host s) :
    Core (run s acts) ∧ Host (run s acts) ∧
      (run s acts).concurrency = s.concurrency := by
  induction acts generalizing s with
  | nil => exact ⟨hc, hh, rfl⟩
  | cons a acts iha =>
    obtain ⟨h1, h2, h3⟩ := step_inv_t a hc hh
    obtain ⟨h4, h5, h6⟩ := iha (step s a) h1 h2
    exact ⟨h4, h5, h6.trans h3⟩

/-- The constructor's initial state satisfies the invariants. -/
theorem init_inv_t (options : Option Opts) :
    Core (init options) ∧ Host (init options) := by
  refine ⟨⟨?_, ?_, ?_, ?_, ?_, ?_, ?_, ?_, ?_, ?_⟩, ⟨?_, ?_, ?_, ?_, ?_, ?_, ?_⟩⟩
  · show (0 : Int) = (([] : List Nat).length : Int)
    simp
  · show (0 : Int) ≤ ((init options).concurrency : Int)
    exact Int.natCast_nonneg _
  · intro d hd
    exact absurd hd (List.not_mem_nil d)
  · intro e he
    exact absurd he (List.not_mem_nil e)
  · rfl
  · show false = true ↔ 1 ≤ 0
    simp
  · rfl
  · exact fun h => nomatch h
  · intro e he
    exact absurd he (List.not_mem_nil e)
  · rfl
  · intro h
    exact absurd (rfl : ([] : List Nat) = []) h
  · intro h
    exact absurd (rfl : ([] : List Nat) ++ Writable.blockedOf [] = []) h
  · intro h
    exact absurd (rfl : ([] : List Nat) ++ Writable.blockedOf [] = []) h
  · show (0 : Nat) ≤ 1
    simp
  · intro _
    rfl
  · show (([] : List Nat) ++ Writable.blockedOf []).length ≤ 1
    simp [Writable.blockedOf]
  · rfl

end Transform

/-! ## The claims -/

namespace Writable

theorem finishMaybe_ended (s : WState) : (finishMaybe s).ended = s.ended := by
  unfold finishMaybe
  split <;> rfl

theorem realEnd_ended (s : WState) : (realEnd s).ended = true := by
  unfold realEnd
  split
  · assumption
  · rw [finishMaybe_ended]

theorem realEnd_flushActive (s : WState) : (realEnd s).flushActive = s.flushActive := by
  unfold realEnd
  split
  · rfl
  · show (finishMaybe { s with ended := true }).flushActive = s.flushActive
    unfold finishMaybe
    split <;> rfl

end Writable

namespace Transform

theorem finishMaybe_ended_t (s : TState) : (finishMaybe s).ended = s.ended := by
  unfold finishMaybe
  split <;> rfl

theorem realEnd_ended_t (s : TState) : (realEnd s).ended = true := by
  unfold realEnd
  split
  · assumption
  · rw [finishMaybe_ended_t]

end Transform

/-- Claim C1: for every stage (writable sink or transform) constructed with
any concurrency option, every schedule of producer writes, end calls, host
continuations and work completions, the in-flight counter `pending` stays
between 0 and the constructed concurrency limit at every instant: each
dispatch happens under the limit check (the ghost dispatch records carry the
incremented counter, which is positive and bounded by the limit), and each
completion decrements exactly once, never below zero (the ghost completion
records carry the decremented counter, which is non-negative). -/
theorem claim_C1_inflight_bounded (arg2 : WArg2) (arg3 : Option Opts) (oc : Option Opts)
    (actsW : List Writable.WAct) (actsT : List Transform.TAct) :
    (0 ≤ (Writable.run (Writable.init arg2 arg3) actsW).pending
      ∧ (Writable.run (Writable.init arg2 arg3) actsW).pending
          ≤ ((Writable.init arg2 arg3).concurrency : Int)
      ∧ (∀ d ∈ (Writable.run (Writable.init arg2 arg3) actsW).dispatched,
          0 < d.pendingAfter
            ∧ d.pendingAfter ≤ ((Writable.init arg2 arg3).concurrency : Int))
      ∧ (∀ e ∈ (Writable.run (Writable.init arg2 arg3) actsW).completions,
          0 ≤ e.pendingAfter))
    ∧ (0 ≤ (Transform.run (Transform.init oc) actsT).pending
      ∧ (Transform.run (Transform.init oc) actsT).pending
          ≤ ((Transform.init oc).concurrency : Int)
      ∧ (∀ d ∈ (Transform.run (Transform.init oc) actsT).dispatched,
          0 < d.pendingAfter ∧ d.pendingAfter ≤ ((Transform.init oc).concurrency : Int))
      ∧ (∀ e ∈ (Transform.run (Transform.init oc) actsT).completions,
          0 ≤ e.pendingAfter)) := by
  obtain ⟨hcW, hhW, _, hcoW⟩ := Writable.run_inv (Writable.init arg2 arg3) actsW
    (Writable.init_inv arg2 arg3).1 (Writable.init_inv arg2 arg3).2.1
  obtain ⟨hcT, hhT, hcoT⟩ := Transform.run_inv_t (Transform.init oc) actsT
    (Transform.init_inv_t oc).1 (Transform.init_inv_t oc).2
  refine ⟨⟨?_, ?_, ?_, hcW.compOk⟩, ⟨?_, ?_, ?_, hcT.compOk⟩⟩
  · rw [hcW.pendEq]
    exact Int.natCast_nonneg _
  · rw [← hcoW]
    exact hcW.pendLe
  · intro d hd
    obtain ⟨h1, h2⟩ := hcW.dispOk d hd
    rw [← hcoW]
    exact ⟨h1, h2⟩
  · rw [hcT.pendEq]
    exact Int.natCast_nonneg _
  · rw [← hcoT]
    exact hcT.pendLe
  · intro d hd
    obtain ⟨h1, h2⟩ := hcT.dispOk d hd
    rw [← hcoT]
    exact ⟨h1, h2⟩

/-- Witness for C1 at a concrete stage and schedule. -/
theorem claim_C1_witness :
    0 ≤ (Writable.run (Writable.init (WArg2.flushFn FlushKind.user) (some ⟨some 2⟩))
        [Writable.WAct.write 10 1, Writable.WAct.onwrite 10, Writable.WAct.write 10 2]).pending
    ∧ (Writable.run (Writable.init (WArg2.flushFn FlushKind.user) (some ⟨some 2⟩))
        [Writable.WAct.write 10 1, Writable.WAct.onwrite 10, Writable.WAct.write 10 2]).pending
      ≤ ((Writable.init (WArg2.flushFn FlushKind.user) (some ⟨some 2⟩)).concurrency : Int) :=
  ⟨(claim_C1_inflight_bounded (WArg2.flushFn FlushKind.user) (some ⟨some 2⟩) none
      [Writable.WAct.write 10 1, Writable.WAct.onwrite 10, Writable.WAct.write 10 2] []).1.1,
    (claim_C1_inflight_bounded (WArg2.flushFn FlushKind.user) (some ⟨some 2⟩) none
      [Writable.WAct.write 10 1, Writable.WAct.onwrite 10, Writable.WAct.write 10 2] []).1.2.1⟩

/-- Claim C2: for both stage variants, the first reported failure (from work
or, for the sink, from the finalize hook) is the only one that produces an
error notification: at most one `error` event is ever emitted, and if at
least one failure was reported then exactly one `error` event was emitted,
regardless of how many further failures occur. -/
theorem claim_C2_first_error_wins (arg2 : WArg2) (arg3 : Option Opts) (oc : Option Opts)
    (actsW : List Writable.WAct) (actsT : List Transform.TAct) :
    ((Writable.run (Writable.init arg2 arg3) actsW).errorEvents ≤ 1
      ∧ (1 ≤ (Writable.run (Writable.init arg2 arg3) actsW).failCalls →
          (Writable.run (Writable.init arg2 arg3) actsW).errorEvents = 1))
    ∧ ((Transform.run (Transform.init oc) actsT).errorEvents ≤ 1
      ∧ (1 ≤ (Transform.run (Transform.init oc) actsT).failCalls →
          (Transform.run (Transform.init oc) actsT).errorEvents = 1)) := by
  obtain ⟨hcW, _, _, _⟩ := Writable.run_inv (Writable.init arg2 arg3) actsW
    (Writable.init_inv arg2 arg3).1 (Writable.init_inv arg2 arg3).2.1
  obtain ⟨hcT, _, _⟩ := Transform.run_inv_t (Transform.init oc) actsT
    (Transform.init_inv_t oc).1 (Transform.init_inv_t oc).2
  constructor
  · constructor
    · rw [hcW.errEq]
      split <;> simp
    · intro h
      rw [hcW.errEq, hcW.errIff.mpr h]
      rfl
  · constructor
    · rw [hcT.errEq]
      split <;> simp
    · intro h
      rw [hcT.errEq, hcT.errIff.mpr h]
      rfl

/-- Witness for C2: two work failures on each variant still produce exactly
one error event. -/
theorem claim_C2_witness :
    (Writable.run (Writable.init (WArg2.flushFn FlushKind.user) (some ⟨some 2⟩))
      [Writable.WAct.write 10 1, Writable.WAct.onwrite 10, Writable.WAct.write 10 2, Writable.WAct.onwrite 10,
       Writable.WAct.complete 10 0 true, Writable.WAct.complete 10 1 true]).errorEvents = 1
    ∧ (Transform.run (Transform.init (some ⟨some 2⟩))
      [Transform.TAct.write 10 1, Transform.TAct.onwrite 10, Transform.TAct.write 10 2, Transform.TAct.onwrite 10,
       Transform.TAct.complete 10 0 true none, Transform.TAct.complete 10 1 true none]).errorEvents = 1 :=
  ⟨(claim_C2_first_error_wins (WArg2.flushFn FlushKind.user) (some ⟨some 2⟩)
      (some ⟨some 2⟩)
      [Writable.WAct.write 10 1, Writable.WAct.onwrite 10, Writable.WAct.write 10 2, Writable.WAct.onwrite 10,
       Writable.WAct.complete 10 0 true, Writable.WAct.complete 10 1 true]
      [Transform.TAct.write 10 1, Transform.TAct.onwrite 10, Transform.TAct.write 10 2, Transform.TAct.onwrite 10,
       Transform.TAct.complete 10 0 true none, Transform.TAct.complete 10 1 true none]).1.2 (by decide),
    (claim_C2_first_error_wins (WArg2.flushFn FlushKind.user) (some ⟨some 2⟩)
      (some ⟨some 2⟩)
      [Writable.WAct.write 10 1, Writable.WAct.onwrite 10, Writable.WAct.write 10 2, Writable.WAct.onwrite 10,
       Writable.WAct.complete 10 0 true, Writable.WAct.complete 10 1 true]
      [Transform.TAct.write 10 1, Transform.TAct.onwrite 10, Transform.TAct.write 10 2, Transform.TAct.onwrite 10,
       Transform.TAct.complete 10 0 true none, Transform.TAct.complete 10 1 true none]).2.2 (by decide)⟩

/-- Claim C3: for the writable sink, `end` first defers on a non-empty host
buffer (registering an `empty` listener), then defers on a non-zero in-flight
count (registering a `free` listener); the finalize hook is only ever invoked
at an instant where the host buffer is empty, the in-flight count is zero and
no error has been recorded; under a single `end` call it is invoked at most
once, and completion (`finish`) is only signaled after it ran exactly once. -/
theorem claim_C3_end_protocol (arg2 : WArg2) (arg3 : Option Opts)
    (acts : List Writable.WAct) (hone : Writable.endCalls acts ≤ 1) :
    (∀ e ∈ (Writable.run (Writable.init arg2 arg3) acts).flushSnaps,
      e.pending = 0 ∧ e.errorEmitted = false ∧ e.bufLen = 0)
    ∧ (Writable.run (Writable.init arg2 arg3) acts).flushCalled ≤ 1
    ∧ ((Writable.run (Writable.init arg2 arg3) acts).finished = true →
        (Writable.run (Writable.init arg2 arg3) acts).flushCalled = 1)
    ∧ (∀ (f : Nat) (s : WState) ch cb, s.hostBuffer ≠ [] →
        Writable.endFn (f + 1) s ch cb
          = { s with emptyListeners := s.emptyListeners ++ [(ch, cb)] })
    ∧ (∀ (f : Nat) (s : WState) ch cb, s.hostBuffer = [] → s.pending ≠ 0 →
        Writable.endFn (f + 1) s ch cb
          = { s with freeListeners := s.freeListeners ++ [.retryEnd ch cb] }) := by
  obtain ⟨hc, hh, htok, _⟩ := Writable.run_inv (Writable.init arg2 arg3) acts
    (Writable.init_inv arg2 arg3).1 (Writable.init_inv arg2 arg3).2.1
  have htok0 : Writable.wTok (Writable.init arg2 arg3) = 0 :=
    (Writable.init_inv arg2 arg3).2.2
  have hle : (Writable.run (Writable.init arg2 arg3) acts).flushCalled
      ≤ Writable.wTok (Writable.run (Writable.init arg2 arg3) acts) :=
    Nat.le_add_left _ _
  have hfc : (Writable.run (Writable.init arg2 arg3) acts).flushCalled ≤ 1 := by
    omega
  refine ⟨hc.flushOk, hfc, ?_, ?_, ?_⟩
  · intro hfin
    have h2 := hc.endedFlush (hc.finEnded hfin)
    omega
  · intro f s ch cb hbne
    simp only [Writable.endFn]
    rw [if_pos hbne]
  · intro f s ch cb hbe hpne
    simp only [Writable.endFn]
    rw [if_neg (not_not_intro hbe), if_pos hpne]

/-- Witness for C3 at a concrete stage and schedule reaching `finish`. -/
theorem claim_C3_witness :
    (Writable.run (Writable.init (WArg2.flushFn FlushKind.user) (some ⟨some 1⟩))
      [Writable.WAct.write 10 1, Writable.WAct.onwrite 10,
       Writable.WAct.endCall 10 none true, Writable.WAct.complete 10 0 false,
       Writable.WAct.flushDone false]).flushCalled ≤ 1
    ∧ (Writable.run (Writable.init (WArg2.flushFn FlushKind.user) (some ⟨some 1⟩))
      [Writable.WAct.write 10 1, Writable.WAct.onwrite 10,
       Writable.WAct.endCall 10 none true, Writable.WAct.complete 10 0 false,
       Writable.WAct.flushDone false]).flushCalled = 1 :=
  ⟨(claim_C3_end_protocol (WArg2.flushFn FlushKind.user) (some ⟨some 1⟩)
      [Writable.WAct.write 10 1, Writable.WAct.onwrite 10,
       Writable.WAct.endCall 10 none true, Writable.WAct.complete 10 0 false,
       Writable.WAct.flushDone false] (by decide)).2.1,
    (claim_C3_end_protocol (WArg2.flushFn FlushKind.user) (some ⟨some 1⟩)
      [Writable.WAct.write 10 1, Writable.WAct.onwrite 10,
       Writable.WAct.endCall 10 none true, Writable.WAct.complete 10 0 false,
       Writable.WAct.flushDone false] (by decide)).2.2.1 (by decide)⟩

/-- Claim C4 is violated by the code: the writable completion callback emits
`free` before recording the failure (lines 61-65), so when the producer has
called `end()` while the last chunk is in flight and that chunk's work then
fails, the deferred `end` resumes first, sees no recorded error, runs the
(default) finalize hook and calls the underlying `end()` — and the failure is
recorded afterwards.  Both a `finish` and an `error` notification are
delivered in the same execution. -/
theorem claim_C4_double_notification :
    (Writable.run (Writable.init (WArg2.flushFn FlushKind.default) (some ⟨some 1⟩))
      [Writable.WAct.write 10 5, Writable.WAct.onwrite 10,
       Writable.WAct.endCall 10 none true,
       Writable.WAct.complete 10 0 true]).errorEvents = 1
    ∧ (Writable.run (Writable.init (WArg2.flushFn FlushKind.default) (some ⟨some 1⟩))
      [Writable.WAct.write 10 5, Writable.WAct.onwrite 10,
       Writable.WAct.endCall 10 none true,
       Writable.WAct.complete 10 0 true]).finishEvents = 1 := by
  decide

/-- Counterexample to claim C5 as stated: with concurrency 2, chunk 1's work
fails first and chunk 2's work then completes cleanly with output 7.  No
error-free completion occurs before the error, so the claim predicts an empty
emitted sequence, but the code pushes 7 downstream. -/
theorem claim_C5_counterexample :
    Transform.pushedOf (Transform.beforeFirstError
      (Transform.run (Transform.init (some ⟨some 2⟩))
        [Transform.TAct.write 10 1, Transform.TAct.onwrite 10,
         Transform.TAct.write 10 2, Transform.TAct.onwrite 10,
         Transform.TAct.complete 10 0 true none,
         Transform.TAct.complete 10 1 false (some 7)]).completions) = []
    ∧ (Transform.run (Transform.init (some ⟨some 2⟩))
        [Transform.TAct.write 10 1, Transform.TAct.onwrite 10,
         Transform.TAct.write 10 2, Transform.TAct.onwrite 10,
         Transform.TAct.complete 10 0 true none,
         Transform.TAct.complete 10 1 false (some 7)]).pushed = [7]
    ∧ (Transform.run (Transform.init (some ⟨some 2⟩))
        [Transform.TAct.write 10 1, Transform.TAct.onwrite 10,
         Transform.TAct.write 10 2, Transform.TAct.onwrite 10,
         Transform.TAct.complete 10 0 true none,
         Transform.TAct.complete 10 1 false (some 7)]).errorEvents = 1 := by
  decide

/-- Claim C5 as amended: the emitted sequence is exactly the non-null outputs
of ALL error-free completions — including those occurring after an error has
been recorded — each exactly once, in completion order; a completion that
reports an error emits nothing even if it supplies a value. -/
theorem claim_C5_amended (oc : Option Opts) (acts : List Transform.TAct) :
    (Transform.run (Transform.init oc) acts).pushed
      = Transform.pushedOf (Transform.run (Transform.init oc) acts).completions :=
  ((Transform.run_inv_t (Transform.init oc) acts
    (Transform.init_inv_t oc).1 (Transform.init_inv_t oc).2).1).pushEq

/-- Counterexample to claim C6 as stated: writable sink with concurrency 1;
chunk 1's work fails (the error is recorded and emitted), then the producer
writes chunk 2 — and chunk 2 is still dispatched to the work function, with
the error flag already set at the instant of dispatch. -/
theorem claim_C6_counterexample :
    ((Writable.run (Writable.init (WArg2.flushFn FlushKind.user) (some ⟨some 1⟩))
      [Writable.WAct.write 10 1, Writable.WAct.onwrite 10,
       Writable.WAct.complete 10 0 true, Writable.WAct.write 10 2,
       Writable.WAct.onwrite 10]).dispatched.map
        (fun d => (d.chunk, d.errAtDispatch))) = [(1, false), (2, true)]
    ∧ (Writable.run (Writable.init (WArg2.flushFn FlushKind.user) (some ⟨some 1⟩))
      [Writable.WAct.write 10 1, Writable.WAct.onwrite 10,
       Writable.WAct.complete 10 0 true, Writable.WAct.write 10 2,
       Writable.WAct.onwrite 10]).errorEvents = 1 := by
  decide

/-- Claim C6 as amended: once an error has been recorded, work already in
flight still runs to completion (its completion is processed and recorded
exactly as without an error — nothing is cancelled), and a subsequent plain
`end` call never invokes the finalize hook (writable) and never calls the
underlying `end()` (transform); but further chunks MAY still be admitted
(dispatched to the work function) after the error, as the counterexample
shows — the error does not halt admission. -/
theorem claim_C6_post_error_behavior :
    (∀ (arg2 : WArg2) (arg3 : Option Opts) (acts : List Writable.WAct)
      (f wid : Nat) (err : Bool),
      wid ∈ (Writable.run (Writable.init arg2 arg3) acts).inFlight →
        (Writable.step (Writable.run (Writable.init arg2 arg3) acts)
            (Writable.WAct.complete f wid err)).completions
          = (Writable.run (Writable.init arg2 arg3) acts).completions
            ++ [⟨wid, err, (Writable.run (Writable.init arg2 arg3) acts).pending - 1⟩])
    ∧ (∀ (oc : Option Opts) (acts : List Transform.TAct) (f wid : Nat) (err : Bool)
      (data : Option Nat),
      wid ∈ (Transform.run (Transform.init oc) acts).inFlight →
        (Transform.step (Transform.run (Transform.init oc) acts)
            (Transform.TAct.complete f wid err data)).completions
          = (Transform.run (Transform.init oc) acts).completions
            ++ [⟨wid, err, data, (Transform.run (Transform.init oc) acts).pending - 1⟩])
    ∧ (∀ (f : Nat) (s : WState) (cb : Bool), s.errorEmitted = true →
        (Writable.endFn (f + 1) s none cb).flushCalled = s.flushCalled)
    ∧ (∀ (f : Nat) (s : TState) (cb : Bool), s.errorEmitted = true →
        (Transform.endFn (f + 1) s none cb).ended = s.ended) := by
  refine ⟨?_, ?_, ?_, ?_⟩
  · intro arg2 arg3 acts f wid err hm
    obtain ⟨hc, hh, _, _⟩ := Writable.run_inv (Writable.init arg2 arg3) acts
      (Writable.init_inv arg2 arg3).1 (Writable.init_inv arg2 arg3).2.1
    simp only [Writable.step]
    rw [if_pos hm]
    have h1 : Writable.Core
        (Writable.completeEntry (Writable.run (Writable.init arg2 arg3) acts) wid err) :=
      Writable.completeEntry_core hc hm
    have h2 : Writable.Host
        (Writable.completeEntry (Writable.run (Writable.init arg2 arg3) acts) wid err) :=
      Writable.hostH_of hh rfl rfl rfl rfl rfl rfl
    obtain ⟨_, _, _, h4⟩ := (Writable.master f).2.2.2.2.2.1 _ h1 h2
    unfold Writable.complete
    split
    · rw [(Writable.fail_link _).2, h4.2]
      rfl
    · rw [h4.2]
      rfl
  · intro oc acts f wid err data hm
    obtain ⟨hc, hh, _⟩ := Transform.run_inv_t (Transform.init oc) acts
      (Transform.init_inv_t oc).1 (Transform.init_inv_t oc).2
    simp only [Transform.step]
    rw [if_pos hm]
    unfold Transform.complete
    split
    · rename_i herr
      subst herr
      have h1 : Transform.Core (Transform.fail
          (Transform.completeEntry (Transform.run (Transform.init oc) acts)
            wid true data)) :=
        Transform.fail_core_t (Transform.completeEntry_core_err hc hm)
      have h2 : Transform.Host (Transform.fail
          (Transform.completeEntry (Transform.run (Transform.init oc) acts)
            wid true data)) :=
        Transform.fail_host_t (Transform.hostH_of_t hh rfl rfl rfl rfl rfl rfl)
      obtain ⟨_, _, h3⟩ := (Transform.master_t f).2.2.2.1 _ h1 h2
      rw [h3.2.1, (Transform.fail_pc _).2.2]
      rfl
    · rename_i herr
      have herr0 : err = false := by
        cases err
        · rfl
        · exact absurd rfl herr
      subst herr0
      have h1 : Transform.Core (Transform.pushData
          (Transform.completeEntry (Transform.run (Transform.init oc) acts)
            wid false data) data) :=
        Transform.completePush_core hc hm
      have h2 : Transform.Host (Transform.pushData
          (Transform.completeEntry (Transform.run (Transform.init oc) acts)
            wid false data) data) :=
        Transform.pushData_host data (Transform.hostH_of_t hh rfl rfl rfl rfl rfl rfl)
      obtain ⟨_, _, h3⟩ := (Transform.master_t f).2.2.2.1 _ h1 h2
      rw [h3.2.1]
      cases data <;> rfl
  · intro f s cb herr
    simp only [Writable.endFn, herr]
    split
    · rfl
    · split
      · rfl
      · rfl
  · intro f s cb herr
    simp only [Transform.endFn, herr]
    split
    · rfl
    · simp [Transform.attachCb_eq_t]

/-- Witness for C6 as amended, at concrete stages. -/
theorem claim_C6_post_error_witness :
    (Writable.step (Writable.run (Writable.init (WArg2.flushFn FlushKind.user)
        (some ⟨some 1⟩)) [Writable.WAct.write 10 1, Writable.WAct.onwrite 10])
        (Writable.WAct.complete 10 0 true)).completions
      = (Writable.run (Writable.init (WArg2.flushFn FlushKind.user) (some ⟨some 1⟩))
          [Writable.WAct.write 10 1, Writable.WAct.onwrite 10]).completions
        ++ [⟨0, true, (Writable.run (Writable.init (WArg2.flushFn FlushKind.user)
            (some ⟨some 1⟩))
            [Writable.WAct.write 10 1, Writable.WAct.onwrite 10]).pending - 1⟩]
    ∧ (Writable.endFn 1 (Writable.fail (Writable.init (WArg2.flushFn FlushKind.user)
        (some ⟨some 1⟩))) none false).flushCalled
      = (Writable.fail (Writable.init (WArg2.flushFn FlushKind.user)
          (some ⟨some 1⟩))).flushCalled :=
  ⟨claim_C6_post_error_behavior.1 (WArg2.flushFn FlushKind.user) (some ⟨some 1⟩)
      [Writable.WAct.write 10 1, Writable.WAct.onwrite 10] 10 0 true (by decide),
    claim_C6_post_error_behavior.2.2.1 0
      (Writable.fail (Writable.init (WArg2.flushFn FlushKind.user) (some ⟨some 1⟩)))
      false (by decide)⟩

/-- Claim C7: the transform's `end` never consults the host buffer — with the
in-flight count at zero and no recorded error it invokes the underlying
`end()` immediately, whatever the buffer contains — but it does defer (on a
`free` listener) whenever the in-flight count is non-zero, and at every
invocation of the underlying `end()` the in-flight count is zero and no work
is in flight, so the output of every already-dispatched chunk has already
been pushed downstream. -/
theorem claim_C7_transform_end :
    (∀ (f : Nat) (s : TState) (cb : Bool), s.pending = 0 → s.errorEmitted = false →
      (Transform.endFn (f + 1) s none cb).ended = true)
    ∧ (∀ (f : Nat) (s : TState) ch cb, s.pending ≠ 0 →
        Transform.endFn (f + 1) s ch cb
          = { s with freeListeners := s.freeListeners ++ [.retryEnd ch cb] })
    ∧ (∀ (oc : Option Opts) (acts : List Transform.TAct),
        ∀ e ∈ (Transform.run (Transform.init oc) acts).endSnaps,
          e.pending = 0 ∧ e.inFlightLen = 0) := by
  refine ⟨?_, ?_, ?_⟩
  · intro f s cb hp herr
    simp only [Transform.endFn]
    rw [if_neg (not_not_intro hp), if_neg (by simp [herr]), Transform.realEnd_ended_t]
  · intro f s ch cb hpne
    simp only [Transform.endFn]
    rw [if_pos hpne]
  · intro oc acts
    exact ((Transform.run_inv_t (Transform.init oc) acts
      (Transform.init_inv_t oc).1 (Transform.init_inv_t oc).2).1).endSnapOk

/-- Witness for C7: `end` on a state whose host buffer still holds a chunk,
with nothing in flight and no error, proceeds straight to the underlying
`end()`; and a concrete run's end-snapshot shows zero in-flight work. -/
theorem claim_C7_witness :
    (Transform.endFn 1 { Transform.init none with hostBuffer := [9] } none false).ended
      = true
    ∧ Transform.endFn 1 { Transform.init none with pending := 1 } none false
      = { Transform.init none with pending := 1, freeListeners := [WFree.retryEnd none false] } :=
  ⟨claim_C7_transform_end.1 0 { Transform.init none with hostBuffer := [9] } false
      (by decide) (by decide),
    claim_C7_transform_end.2.1 0 { Transform.init none with pending := 1 } none false
      (by decide)⟩

/-- Claim C8: for both variants and every schedule, the pipeline equation
holds — the chunks ever handed to the host `write`, in producer order, are
exactly the dispatched chunks (in dispatch order) followed by the at most one
blocked chunk followed by the host-buffered chunks.  In particular the
dispatch order is a prefix of the producer order: chunks are admitted to the
work function in input order, and blocked chunks are re-dispatched FIFO. -/
theorem claim_C8_fifo_admission (arg2 : WArg2) (arg3 : Option Opts) (oc : Option Opts)
    (actsW : List Writable.WAct) (actsT : List Transform.TAct) :
    ((Writable.run (Writable.init arg2 arg3) actsW).dispatched.map (·.chunk)
        ++ Writable.blockedOf (Writable.run (Writable.init arg2 arg3) actsW).freeListeners
        ++ (Writable.run (Writable.init arg2 arg3) actsW).hostBuffer
      = (Writable.run (Writable.init arg2 arg3) actsW).writesIssued
      ∧ ∃ rest, (Writable.run (Writable.init arg2 arg3) actsW).dispatched.map (·.chunk)
          ++ rest = (Writable.run (Writable.init arg2 arg3) actsW).writesIssued)
    ∧ ((Transform.run (Transform.init oc) actsT).dispatched.map (·.chunk)
        ++ Writable.blockedOf (Transform.run (Transform.init oc) actsT).freeListeners
        ++ (Transform.run (Transform.init oc) actsT).hostBuffer
      = (Transform.run (Transform.init oc) actsT).writesIssued
      ∧ ∃ rest, (Transform.run (Transform.init oc) actsT).dispatched.map (·.chunk)
          ++ rest = (Transform.run (Transform.init oc) actsT).writesIssued) := by
  obtain ⟨_, hhW, _, _⟩ := Writable.run_inv (Writable.init arg2 arg3) actsW
    (Writable.init_inv arg2 arg3).1 (Writable.init_inv arg2 arg3).2.1
  obtain ⟨_, hhT, _⟩ := Transform.run_inv_t (Transform.init oc) actsT
    (Transform.init_inv_t oc).1 (Transform.init_inv_t oc).2
  have hpW := hhW.pipe
  rw [List.append_nil] at hpW
  have hpT := hhT.pipe
  rw [List.append_nil] at hpT
  constructor
  · refine ⟨hpW, ⟨Writable.blockedOf (Writable.run (Writable.init arg2 arg3)
      actsW).freeListeners ++ (Writable.run (Writable.init arg2 arg3) actsW).hostBuffer,
      ?_⟩⟩
    rw [← hpW]
    simp [List.append_assoc]
  · refine ⟨hpT, ⟨Writable.blockedOf (Transform.run (Transform.init oc)
      actsT).freeListeners ++ (Transform.run (Transform.init oc) actsT).hostBuffer, ?_⟩⟩
    rw [← hpT]
    simp [List.append_assoc]

/-- Claim C9: calling the writable constructor with an options object as its
second argument shifts it into the options slot and installs the default
finalize hook, yielding exactly the same stage as the three-argument call
with an immediately-succeeding finalize hook; and such a default hook, when
`end` reaches it with an empty buffer, nothing in flight and no error,
completes immediately with no error — the underlying `end()` is called at
once and no finalize invocation is left outstanding. -/
theorem claim_C9_options_as_second_arg (o : Opts) :
    Writable.init (WArg2.optionsObj o) none
      = Writable.init (WArg2.flushFn FlushKind.default) (some o)
    ∧ (Writable.init (WArg2.optionsObj o) none).flushKind = FlushKind.default
    ∧ (∀ (f : Nat) (s : WState) (cb : Bool), s.flushKind = FlushKind.default →
        s.hostBuffer = [] → s.pending = 0 → s.errorEmitted = false →
        (Writable.endFn (f + 1) s none cb).ended = true
          ∧ (Writable.endFn (f + 1) s none cb).flushActive = s.flushActive) := by
  refine ⟨rfl, rfl, ?_⟩
  intro f s cb hk hbuf hp herr
  have hred : Writable.endFn (f + 1) s none cb
      = Writable.realEnd (Writable.invokeFlush (Writable.attachCb s cb)) := by
    simp only [Writable.endFn]
    rw [if_neg (not_not_intro hbuf), if_neg (not_not_intro hp),
      if_neg (by simp [herr])]
    split
    · rfl
    · rename_i hk2
      rw [hk] at hk2
      exact FlushKind.noConfusion hk2
  constructor
  · rw [hred, Writable.realEnd_ended]
  · rw [hred, Writable.realEnd_flushActive, Writable.attachCb_eq]
    rfl

/-- Witness for C9's default-hook behavior at a concrete state. -/
theorem claim_C9_witness :
    (Writable.endFn 1 (Writable.init (WArg2.optionsObj ⟨some 3⟩) none) none false).ended
      = true
    ∧ (Writable.endFn 1 (Writable.init (WArg2.optionsObj ⟨some 3⟩) none)
        none false).flushActive
      = (Writable.init (WArg2.optionsObj ⟨some 3⟩) none).flushActive :=
  (claim_C9_options_as_second_arg ⟨some 3⟩).2.2 0
    (Writable.init (WArg2.optionsObj ⟨some 3⟩) none) false (by decide) (by decide)
    (by decide) (by decide)

/-- Claim C10: for both constructors, a missing or falsy (zero) concurrency
option yields a concurrency limit of exactly 1, while a positive value is
taken as given. -/
theorem claim_C10_default_concurrency :
    (∀ k : FlushKind, (Writable.init (WArg2.flushFn k) (some ⟨none⟩)).concurrency = 1
      ∧ (Writable.init (WArg2.flushFn k) (some ⟨some 0⟩)).concurrency = 1
      ∧ (Writable.init (WArg2.flushFn k) none).concurrency = 1)
    ∧ (Transform.init (some ⟨none⟩)).concurrency = 1
    ∧ (Transform.init (some ⟨some 0⟩)).concurrency = 1
    ∧ (Transform.init none).concurrency = 1
    ∧ (∀ n : Nat, jsConcurrency (some (n + 1)) = n + 1) :=
  ⟨fun _ => ⟨rfl, rfl, rfl⟩, rfl, rfl, rfl, fun _ => rfl⟩

end ConcurrentStream
